import Mathlib

/-!
Verification of the destinations routing service of the jitsu event router
(Go package destinations: NewService, Service.init, Service.remove,
Service.updateDestinations and the lookup methods).

Embedding conventions:
- Go maps become association lists with Go map semantics: assignment replaces
  the entry for the key, delete drops it, lookup of a missing key yields the
  zero value exactly where the source relies on that. A snapshot passed to a
  cycle is the Go map rendered as a key-value list in iteration order.
- Resource handles (storage proxies, event queues, incoming loggers) are
  numbered from a fresh counter in the service state; every Close() call
  appends the handle id to a closed list, so use-after-close and double close
  are observable in the final state.
- The single reader-writer lock is tracked observationally: every write to a
  shared structure is recorded in an event trace together with whether the
  write lock was held at that program point, and construction, registration
  and completed removal of a destination are recorded as events.
- A nil-pointer dereference (a Go panic) is modelled by returning none.
-/

namespace Destinations

/-- Association list with string keys, standing for a Go map. Lookup returns
the value of the first pair carrying the key. -/
def alookup {β : Type} (k : String) : List (String × β) → Option β
  | [] => none
  | p :: rest => if p.1 = k then some p.2 else alookup k rest

/-- Go map assignment: replace the entry for the key, or append a new entry. -/
def aset {β : Type} (k : String) (v : β) : List (String × β) → List (String × β)
  | [] => [(k, v)]
  | p :: rest => if p.1 = k then (k, v) :: rest else p :: aset k v rest

/-- Go map delete: drop the entry for the key (a no-op when the key is absent). -/
def aerase {β : Type} (k : String) : List (String × β) → List (String × β)
  | [] => []
  | p :: rest => if p.1 = k then rest else p :: aerase k rest

/-- Modelled from the spec: storages.DestinationConfig (the config type lives
in the storages package, outside the provided sources). It carries the
execution mode (stream or batch), the OnlyTokens list, the Staged flag, and
further per-destination settings; the further settings are collapsed into one
inert field because this service only feeds them to the content hash. -/
structure DestinationConfig where
  Mode : String
  OnlyTokens : List String
  Staged : Bool
  otherSettings : String
deriving DecidableEq, Repr

/-- Modelled from the spec: storages.StreamMode, the mode value of stream
destinations. -/
def StreamMode : String := "stream"

/-- Modelled from the spec: getHash (absent from the provided sources) is a
deterministic, collision-resistant content hash over the destination name and
the full config value; it is modelled as the pair itself, the canonical
collision-free encoding. -/
def getHash (name : String) (cfg : DestinationConfig) : String × DestinationConfig :=
  (name, cfg)

/-- Modelled from the spec: Unit (its file is absent from the provided
sources) bundles one live destination: the event queue handle when the mode is
stream, the storage handle, the resolved token ids, and the change-detection
hash. -/
structure Unit where
  eventQueue : Option Nat
  storage : Nat
  tokenIDs : List String
  hash : String × DestinationConfig
deriving DecidableEq, Repr

/-- Modelled from the spec: Unit.Close closes the unit's event queue (when
present) and its storage handle; this lists the handle ids it closes, in
order. -/
def Unit.closeIDs (u : Unit) : List Nat :=
  (match u.eventQueue with
   | some q => [q]
   | none => []) ++ [u.storage]

/-- LoggerUsage (source lines 27-30) counts the batch destinations attached to
one shared incoming logger; the logger field holds the handle id of the
events.Consumer. -/
structure LoggerUsage where
  logger : Nat
  usage : Int
deriving DecidableEq, Repr

/-- Shared structures of the service whose mutations the trace records. -/
inductive StateField
  | units
  | loggers
  | consumers
  | storages
  | ids
deriving DecidableEq, Repr

/-- Observable events of one reconciliation cycle: a write to a shared
structure together with whether the write lock was held, construction of a
destination's resources by the storage factory, registration of a Unit under a
name, and completed removal of a name (fully unregistered and closed). -/
inductive Event
  | write (f : StateField) (lockHeld : Bool)
  | created (name : String)
  | registered (name : String)
  | removed (name : String)
deriving DecidableEq, Repr

/-- Modelled from the spec: TokenizedConsumers, the token to name to consumer
multi-map (its file is absent from the provided sources); values are consumer
handle ids. TokenizedStorages has the same shape with storage handle ids. -/
abbrev TokenizedMap := List (String × List (String × Nat))

/-- Modelled from the spec: TokenizedIDs, the token to set-of-names map. -/
abbrev TokenizedIDs := List (String × List String)

/-- Modelled from the spec: the Add operation of the tokenized multi-maps
assigns the value under the outer token key and the inner name key, so
re-adding the same entry is idempotent. -/
def tokAdd (m : TokenizedMap) (tokenID name : String) (v : Nat) : TokenizedMap :=
  aset tokenID (aset name v ((alookup tokenID m).getD [])) m

/-- Set insertion for the per-token destination-name sets. -/
def insertName (n : String) (l : List String) : List String :=
  if n ∈ l then l else l ++ [n]

/-- Modelled from the spec: TokenizedIDs.Add records the destination name in
the token's name set. -/
def idAdd (m : TokenizedIDs) (tokenID name : String) : TokenizedIDs :=
  aset tokenID (insertName name ((alookup tokenID m).getD [])) m

/-- Modelled from the spec: AddAll merges every entry of the freshly computed
map into the live map, entry by entry (an additive merge, not a replacement). -/
def tokAddAll (m news : TokenizedMap) : TokenizedMap :=
  news.foldl (fun acc p => p.2.foldl (fun acc2 q => tokAdd acc2 p.1 q.1 q.2) acc) m

/-- Modelled from the spec: AddAll for the destination-id map. -/
def idAddAll (m news : TokenizedIDs) : TokenizedIDs :=
  news.foldl (fun acc p => p.2.foldl (fun acc2 n => idAdd acc2 p.1 n) acc) m

/-- Service state (source lines 33-46): the unit registry, the logger
registry and the three tokenized maps, plus the fresh-handle counter and the
list of Close() calls made so far (handle ids in call order). -/
structure Service where
  unitsByName : List (String × Unit)
  loggersUsageByTokenID : List (String × LoggerUsage)
  consumersByTokenID : TokenizedMap
  storagesByTokenID : TokenizedMap
  destinationsIDByTokenID : TokenizedIDs
  nextHandle : Nat
  closed : List Nat
deriving DecidableEq, Repr

/-- The freshly constructed service of NewService lines 59-69. -/
def emptyService : Service :=
  { unitsByName := []
    loggersUsageByTokenID := []
    consumersByTokenID := []
    storagesByTokenID := []
    destinationsIDByTokenID := []
    nextHandle := 0
    closed := [] }

/-- Authorization resolver collaborator
(appconfig.Instance.AuthorizationService). -/
structure AuthService where
  GetAllIDsByToken : List String → List String
  GetAllTokenIDs : List String

/-- External collaborators of one reconciliation cycle: the authorization
resolver and the failure behavior of the storage factory during the cycle. -/
structure Env where
  auth : AuthService
  createErr : String → DestinationConfig → Bool

/-- Token resolution of Service.init lines 191-196: OnlyTokens is replaced by
the authorization-resolved token id list, or by all known token ids when
OnlyTokens is empty. -/
def resolvedConfig (env : Env) (cfg : DestinationConfig) : DestinationConfig :=
  if cfg.OnlyTokens ≠ [] then
    { cfg with OnlyTokens := env.auth.GetAllIDsByToken cfg.OnlyTokens }
  else
    { cfg with OnlyTokens := env.auth.GetAllTokenIDs }

/-- Consumer stage of the token-loop body of Service.remove, lines 283-295,
for one tokenID: unregister the unit's consumer entry; for a batch unit,
decrement the shared logger's reference count, and at zero delete the token's
consumer entry, drop the registry entry and close the logger. Returns none
when the code dereferences a missing logger-registry entry (the nil pointer
panic of line 289). -/
def removeConsumerStage (lockHeld : Bool) (name : String) (u : Unit) (s : Service)
    (tokenID : String) : Option (List (String × Nat) × Service × List Event) :=
  let oldConsumers0 := (alookup tokenID s.consumersByTokenID).getD []
  match u.eventQueue with
  | some _ => some (aerase name oldConsumers0, s, [.write .consumers lockHeld])
  | none =>
    match alookup tokenID s.loggersUsageByTokenID with
    | none => none
    | some lu =>
      if lu.usage - 1 = 0 then
        some (aerase tokenID oldConsumers0,
              { s with loggersUsageByTokenID := aerase tokenID s.loggersUsageByTokenID,
                       closed := s.closed ++ [lu.logger] },
              [.write .consumers lockHeld, .write .loggers lockHeld])
      else
        let reg := aset tokenID ({ lu with usage := lu.usage - 1 }) s.loggersUsageByTokenID
        some (oldConsumers0, { s with loggersUsageByTokenID := reg },
              [.write .loggers lockHeld])

/-- Write-back of the inner consumer map, lines 297-299: the inner map the
consumer stage mutated replaces the token's entry, and an emptied map drops
the entry entirely. -/
def writeBackConsumers (lockHeld : Bool) (tokenID : String)
    (q : List (String × Nat) × Service × List Event) : Service × List Event :=
  match q with
  | (oldConsumers, s1, evs) =>
    if oldConsumers = [] then
      ({ s1 with consumersByTokenID := aerase tokenID s1.consumersByTokenID },
       evs ++ [.write .consumers lockHeld])
    else
      ({ s1 with consumersByTokenID := aset tokenID oldConsumers s1.consumersByTokenID },
       evs)

/-- Storage stage of the token-loop body, lines 301-308: delete the unit's
storage entry when the token has storages, dropping the emptied per-token
map. -/
def removeStorageEntry (lockHeld : Bool) (name tokenID : String)
    (q : Service × List Event) : Service × List Event :=
  match alookup tokenID q.1.storagesByTokenID with
  | none => q
  | some oldStorages =>
    (if aerase name oldStorages = [] then
       { q.1 with storagesByTokenID := aerase tokenID q.1.storagesByTokenID }
     else
       { q.1 with
           storagesByTokenID := aset tokenID (aerase name oldStorages) q.1.storagesByTokenID },
     q.2 ++ [.write .storages lockHeld])

/-- Destination-id stage of the token-loop body, lines 310-317: delete the
unit's name from the token's id set when present, dropping the emptied
per-token set. -/
def removeIdEntry (lockHeld : Bool) (name tokenID : String)
    (q : Service × List Event) : Service × List Event :=
  match alookup tokenID q.1.destinationsIDByTokenID with
  | none => q
  | some ids0 =>
    (if ids0.erase name = [] then
       { q.1 with destinationsIDByTokenID := aerase tokenID q.1.destinationsIDByTokenID }
     else
       { q.1 with
           destinationsIDByTokenID := aset tokenID (ids0.erase name) q.1.destinationsIDByTokenID },
     q.2 ++ [.write .ids lockHeld])

/-- Rest of the token-loop body after the consumer stage, lines 297-317: write
back the inner consumer map, then the storage stage, then the destination-id
stage. -/
def afterConsumerStage (lockHeld : Bool) (name tokenID : String)
    (q : List (String × Nat) × Service × List Event) : Service × List Event :=
  removeIdEntry lockHeld name tokenID
    (removeStorageEntry lockHeld name tokenID (writeBackConsumers lockHeld tokenID q))

/-- Body of the token loop of Service.remove, lines 282-317, for one tokenID:
the consumer stage followed by the storage and destination-id stage; none when
the consumer stage panics. -/
def removeTokenStep (lockHeld : Bool) (name : String) (u : Unit) (s : Service)
    (tokenID : String) : Option (Service × List Event) :=
  (removeConsumerStage lockHeld name u s tokenID).map (afterConsumerStage lockHeld name tokenID)

/-- Token loop of Service.remove over the unit's token ids. -/
def removeAux (lockHeld : Bool) (name : String) (u : Unit) :
    List String → Service → Option (Service × List Event)
  | [], s => some (s, [])
  | t :: rest, s =>
    match removeTokenStep lockHeld name u s t with
    | none => none
    | some (s1, e1) =>
      match removeAux lockHeld name u rest s1 with
      | none => none
      | some (s2, e2) => some (s2, e1 ++ e2)

/-- Service.remove lines 280-326: unregister the unit from the three tokenized
maps for every token it served, then close the unit and drop it from the unit
registry. Both call sites (Service.init lines 174-178 and 206-208) hold the
write lock; lockHeld records the lock state the caller passes. -/
def Service.remove (lockHeld : Bool) (name : String) (u : Unit) (s : Service) :
    Option (Service × List Event) :=
  match removeAux lockHeld name u u.tokenIDs s with
  | none => none
  | some (s1, evs) =>
    some ({ s1 with closed := s1.closed ++ u.closeIDs,
                    unitsByName := aerase name s1.unitsByName },
          evs ++ [.write .units lockHeld, .removed name])

/-- Cycle-local accumulators newConsumers, newStorages and newIDs of
Service.init lines 182-184. -/
structure NewMaps where
  newConsumers : TokenizedMap
  newStorages : TokenizedMap
  newIDs : TokenizedIDs
deriving DecidableEq, Repr

/-- The empty cycle-local accumulators. -/
def emptyNewMaps : NewMaps :=
  { newConsumers := [], newStorages := [], newIDs := [] }

/-- Get-or-create of the token's shared logger, Service.init lines 249-255: on
a missing registry entry a fresh incoming logger is constructed via the logger
factory and stored with usage zero (a registry write without the lock). -/
def getOrCreateLogger (s : Service) (tokenID : String) : LoggerUsage × Service × List Event :=
  match alookup tokenID s.loggersUsageByTokenID with
  | none =>
    let lu : LoggerUsage := { logger := s.nextHandle, usage := 0 }
    (lu, { s with nextHandle := s.nextHandle + 1,
                  loggersUsageByTokenID := aset tokenID lu s.loggersUsageByTokenID },
     [.write .loggers false])
  | some lu => (lu, s, [])

/-- Body of the registration loop of Service.init lines 240-266 for one
resolved tokenID: staged destinations are skipped entirely; otherwise the
destination name joins the token's id set; a stream destination registers its
queue under its own name; a batch destination gets-or-creates the token's
shared logger, increments its reference count through the shared pointer (a
registry write without the lock), registers the logger under the token's own
name and the storage under the destination name. In stream mode the factory
always produced a queue, so the default of the getD is never read. -/
def consumerTokenStep (cfg : DestinationConfig) (name : String) (queueID : Option Nat)
    (storageID : Nat) (acc : Service × NewMaps × List Event) (tokenID : String) :
    Service × NewMaps × List Event :=
  match acc with
  | (s, nm, evs) =>
    if cfg.Staged then (s, nm, evs)
    else
      let nm1 := { nm with newIDs := idAdd nm.newIDs tokenID name }
      if cfg.Mode = StreamMode then
        (s, { nm1 with newConsumers := tokAdd nm1.newConsumers tokenID name (queueID.getD 0) },
         evs)
      else
        match getOrCreateLogger s tokenID with
        | (lu0, s1, evsL) =>
          let lu := { lu0 with usage := lu0.usage + 1 }
          let s2 := { s1 with loggersUsageByTokenID := aset tokenID lu s1.loggersUsageByTokenID }
          (s2,
           { nm1 with newConsumers := tokAdd nm1.newConsumers tokenID tokenID lu.logger,
                      newStorages := tokAdd nm1.newStorages tokenID name storageID },
           evs ++ evsL ++ [.write .loggers false])

/-- Registration loop of Service.init lines 240-266 over the resolved token
ids. -/
def tokensLoop (cfg : DestinationConfig) (name : String) (queueID : Option Nat)
    (storageID : Nat) : Service × NewMaps × List Event → List String →
    Service × NewMaps × List Event
  | acc, [] => acc
  | acc, t :: rest =>
    tokensLoop cfg name queueID storageID
      (consumerTokenStep cfg name queueID storageID acc t) rest

/-- Change-detection part of the create branch, Service.init lines 199-209:
keep a live unit with an unchanged hash (the skip flag), remove the old unit
under the lock when the hash changed (none when that removal panics). -/
def removeOldUnit (name : String) (hash : String × DestinationConfig) (s : Service) :
    Option (Service × List Event × Bool) :=
  match alookup name s.unitsByName with
  | some u =>
    if u.hash = hash then some (s, [], true)
    else
      match s.remove true name u with
      | none => none
      | some (s1, e1) => some (s1, e1, false)
  | none => some (s, [], false)

/-- Construction and registration part of the create branch, Service.init
lines 219-266: draw fresh handles from the factory (a storage handle, plus a
queue handle in stream mode), register the new Unit in the unit registry (a
write without the lock) and run the per-token registration loop. -/
def registerNew (destinationConfig : DestinationConfig) (name : String) (s1 : Service)
    (nm : NewMaps) (evs : List Event) : Service × NewMaps × List Event :=
  let storageID := s1.nextHandle
  let queueID : Option Nat :=
    if destinationConfig.Mode = StreamMode then some (s1.nextHandle + 1) else none
  let s2 := { s1 with nextHandle :=
    s1.nextHandle + (if destinationConfig.Mode = StreamMode then 2 else 1) }
  let u : Unit := { eventQueue := queueID, storage := storageID,
                    tokenIDs := destinationConfig.OnlyTokens,
                    hash := getHash name destinationConfig }
  let s3 := { s2 with unitsByName := aset name u s2.unitsByName }
  tokensLoop destinationConfig name queueID storageID
    (s3, nm, evs ++ [.created name, .write .units false, .registered name])
    destinationConfig.OnlyTokens

/-- Create-or-recreate body of Service.init lines 185-266 for one destination
of the snapshot: resolve the tokens, compute the content hash over the name
and the resolved config, keep-or-remove the old unit by hash, skip when
resolution is empty or the storage factory fails, otherwise construct and
register the destination. -/
def createStep (env : Env) (acc : Service × NewMaps × List Event)
    (p : String × DestinationConfig) : Option (Service × NewMaps × List Event) :=
  match acc with
  | (s, nm, evs) =>
    let name := p.1
    let destinationConfig := resolvedConfig env p.2
    let hash := getHash name destinationConfig
    (removeOldUnit name hash s).bind fun q =>
      if q.2.2 then some (q.1, nm, evs ++ q.2.1)
      else if destinationConfig.OnlyTokens = [] then some (q.1, nm, evs ++ q.2.1)
      else if env.createErr name destinationConfig then some (q.1, nm, evs ++ q.2.1)
      else some (registerNew destinationConfig name q.1 nm (evs ++ q.2.1))

/-- Create-or-recreate pass of Service.init over the whole snapshot. -/
def createAux (env : Env) : List (String × DestinationConfig) →
    Service × NewMaps × List Event → Option (Service × NewMaps × List Event)
  | [], acc => some acc
  | p :: rest, acc =>
    match createStep env acc p with
    | none => none
    | some acc1 => createAux env rest acc1

/-- Removal loop of the deletion pass of Service.init lines 173-179. -/
def deleteAux : List (String × Unit) → Service → Option (Service × List Event)
  | [], s => some (s, [])
  | p :: rest, s =>
    match s.remove true p.1 p.2 with
    | none => none
    | some (s1, e1) =>
      match deleteAux rest s1 with
      | none => none
      | some (s2, e2) => some (s2, e1 ++ e2)

/-- Deletion pass of Service.init lines 165-179: remove every live unit whose
name is absent from the new snapshot, under the write lock. -/
def deletePass (dc : List (String × DestinationConfig)) (s : Service) :
    Option (Service × List Event) :=
  deleteAux (s.unitsByName.filter fun p => (alookup p.1 dc).isNone) s

/-- Publish step of Service.init lines 269-273: merge the cycle's new
consumer, storage and id entries into the live maps under the write lock. -/
def publish (s : Service) (nm : NewMaps) : Service :=
  { s with consumersByTokenID := tokAddAll s.consumersByTokenID nm.newConsumers,
           storagesByTokenID := tokAddAll s.storagesByTokenID nm.newStorages,
           destinationsIDByTokenID := idAddAll s.destinationsIDByTokenID nm.newIDs }

/-- Service.init lines 162-276: one reconciliation cycle over a snapshot,
deletion pass first, then the create-or-recreate pass, then the publish
merge. -/
def Service.init (env : Env) (dc : List (String × DestinationConfig)) (s : Service) :
    Option (Service × List Event) :=
  match deletePass dc s with
  | none => none
  | some (s1, e1) =>
    match createAux env dc (s1, emptyNewMaps, []) with
    | none => none
    | some (s2, nm, e2) =>
      some (publish s2 nm,
            e1 ++ e2 ++ [.write .consumers true, .write .storages true, .write .ids true])

/-- Service.GetConsumers lines 106-113: the consumer handles registered for a
token (a freshly built slice). -/
def Service.GetConsumers (s : Service) (tokenID : String) : List Nat :=
  ((alookup tokenID s.consumersByTokenID).getD []).map Prod.snd

/-- Service.GetStorageByID lines 115-125: the storage handle of the unit
registered under the id, when present. -/
def Service.GetStorageByID (s : Service) (id : String) : Option Nat :=
  (alookup id s.unitsByName).map Unit.storage

/-- Service.GetStorages lines 127-134: the storage handles registered for a
token. -/
def Service.GetStorages (s : Service) (tokenID : String) : List Nat :=
  ((alookup tokenID s.storagesByTokenID).getD []).map Prod.snd

/-- Service.GetDestinationIDs lines 136-144: a copy of the token's
destination-name set. -/
def Service.GetDestinationIDs (s : Service) (tokenID : String) : List String :=
  (alookup tokenID s.destinationsIDByTokenID).getD []

/-- Service.updateDestinations lines 146-158. parseFromBytes is absent from
the provided sources, so a payload is represented by its parse outcome; none
models a malformed snapshot, on which the method logs and returns without
reconciling. -/
def Service.updateDestinations (env : Env)
    (parsed : Option (List (String × DestinationConfig))) (s : Service) :
    Option (Service × List Event) :=
  match parsed with
  | none => some (s, [])
  | some dc => s.init env dc

/-- NewService lines 58-104, restricted to the in-memory config path that the
claims concern: destinations is none when the viper config is nil, some none
when unmarshalling fails (the error is logged and the freshly built empty
service is returned together with a nil error), and some (some dc) on success,
in which case Service.init runs on the parsed map. The watcher-driven source
branches perform IO and stay outside this model. The inner Option of the
result is none exactly when the initial reconciliation panics. -/
def NewService (reloadSec : Nat) (env : Env)
    (destinations : Option (Option (List (String × DestinationConfig)))) :
    Except String (Option (Service × List Event)) :=
  if reloadSec = 0 then .error "server.destinations_reload_sec cannot be empty"
  else
    match destinations with
    | none => .ok (some (emptyService, []))
    | some none => .ok (some (emptyService, []))
    | some (some dc) => .ok (emptyService.init env dc)

/-- States reachable from the fresh service by reconciliation cycles; each
cycle's snapshot comes from a Go map, so its keys are distinct, while the
collaborators may change between cycles. -/
inductive Reachable : Service → Prop
  | base : Reachable emptyService
  | step {s s' : Service} {env : Env} {dc : List (String × DestinationConfig)}
      {evs : List Event} : Reachable s → (dc.map Prod.fst).Nodup →
      s.init env dc = some (s', evs) → Reachable s'

/-- Keys of an association list. -/
def keysOf {β : Type} (l : List (String × β)) : List String := l.map Prod.fst

/-- Every live logger-registry entry counts at least one attached batch
destination. -/
def UsageInv (s : Service) : Prop := ∀ p ∈ s.loggersUsageByTokenID, 1 ≤ p.2.usage

/-- Key distinctness of the unit registry and the logger registry, as Go map
semantics guarantee. -/
def MapsWF (s : Service) : Prop :=
  (keysOf s.unitsByName).Nodup ∧ (keysOf s.loggersUsageByTokenID).Nodup

/-- Checks that every recorded write to one of the three tokenized maps was
made with the write lock held. -/
def tokenizedWritesLocked (evs : List Event) : Bool :=
  evs.all fun e =>
    match e with
    | .write .consumers b => b
    | .write .storages b => b
    | .write .ids b => b
    | _ => true

/-- The trace of a cycle that removed, constructed and registered nothing:
only the publish-step writes remain. -/
def pubTrace : List Event :=
  [.write .consumers true, .write .storages true, .write .ids true]

/-- Authorization environment resolving listed tokens to themselves, with one
known token id; the storage factory always succeeds. -/
def envID : Env :=
  { auth := { GetAllIDsByToken := fun l => l, GetAllTokenIDs := ["t1"] },
    createErr := fun _ _ => false }

/-- Authorization environment resolving every request to two known token ids;
the storage factory always succeeds. -/
def envTwo : Env :=
  { auth := { GetAllIDsByToken := fun _ => ["t1", "t2"], GetAllTokenIDs := ["t1", "t2"] },
    createErr := fun _ _ => false }

/-- Environment in which authorization data is not loaded yet: no token
resolves. -/
def envNone : Env :=
  { auth := { GetAllIDsByToken := fun _ => [], GetAllTokenIDs := [] },
    createErr := fun _ _ => false }

/-- A batch destination on token t1, config version one. -/
def cfgBatchV1 : DestinationConfig :=
  { Mode := "batch", OnlyTokens := ["t1"], Staged := false, otherSettings := "v1" }

/-- The same batch destination with a changed config value. -/
def cfgBatchV2 : DestinationConfig :=
  { Mode := "batch", OnlyTokens := ["t1"], Staged := false, otherSettings := "v2" }

/-- A stream destination on token t1. -/
def cfgStreamV1 : DestinationConfig :=
  { Mode := "stream", OnlyTokens := ["t1"], Staged := false, otherSettings := "v1" }

/-- A staged batch destination on token t1, config version one. -/
def cfgStagedV1 : DestinationConfig :=
  { Mode := "batch", OnlyTokens := ["t1"], Staged := true, otherSettings := "v1" }

/-- The same staged batch destination with a changed config value. -/
def cfgStagedV2 : DestinationConfig :=
  { Mode := "batch", OnlyTokens := ["t1"], Staged := true, otherSettings := "v2" }

/-- One creating cycle: a batch and a stream destination under token t1. -/
def runCreate : Option (Service × List Event) :=
  emptyService.init envID [("a", cfgBatchV1), ("b", cfgStreamV1)]

/-- Two cycles: a non-staged batch destination and a staged batch destination
share token t1; in the second cycle both config hashes changed, and the Go map
iteration happens to process the non-staged destination first. -/
def runStagedRecreate : Option (Service × List Event) :=
  (emptyService.init envID [("a", cfgBatchV1), ("c", cfgStagedV1)]).bind fun p =>
    p.1.init envID [("a", cfgBatchV2), ("c", cfgStagedV2)]

/-- A cycle creating one staged batch destination, then a cycle with an empty
snapshot, which must remove it. -/
def runStagedDelete : Option (Service × List Event) :=
  (emptyService.init envID [("d", cfgStagedV1)]).bind fun p => p.1.init envID []

/-- A cycle creating one staged batch destination, then a cycle with the
textually identical snapshot under a changed authorization resolution. -/
def runStagedResolutionChange : Option (Service × List Event) :=
  (emptyService.init envID [("d", cfgStagedV1)]).bind fun p =>
    p.1.init envTwo [("d", cfgStagedV1)]

/-- The service after one cycle creating a single batch destination. -/
def svcBatch : Service :=
  ((emptyService.init envID [("a", cfgBatchV1)]).getD (emptyService, [])).1

/-- The service after one cycle creating destination c under token t1. -/
def svcC8 : Service :=
  ((emptyService.init envID [("c", cfgBatchV1)]).getD (emptyService, [])).1

/-- The trace of that cycle. -/
def evsC8 : List Event :=
  ((emptyService.init envID [("c", cfgBatchV1)]).getD (emptyService, [])).2

/-! Basic facts about the Go map operations. -/

theorem alookup_aset_self {β : Type} (k : String) (v : β) (l : List (String × β)) :
    alookup k (aset k v l) = some v := by
  induction l with
  | nil => simp [aset, alookup]
  | cons p rest ih =>
    by_cases h : p.1 = k
    · simp [aset, h, alookup]
    · simp [aset, h, alookup, ih]

theorem alookup_aset_ne {β : Type} {k k' : String} (v : β) (l : List (String × β))
    (h : k' ≠ k) : alookup k (aset k' v l) = alookup k l := by
  induction l with
  | nil => simp [aset, alookup, h]
  | cons p rest ih =>
    by_cases hp : p.1 = k'
    · have hpk : p.1 ≠ k := by rw [hp]; exact h
      rw [aset, if_pos hp, alookup, if_neg h, alookup, if_neg hpk]
    · rw [aset, if_neg hp, alookup, alookup]
      by_cases hk : p.1 = k
      · rw [if_pos hk, if_pos hk]
      · rw [if_neg hk, if_neg hk, ih]

theorem alookup_aerase_ne {β : Type} {k k' : String} (l : List (String × β))
    (h : k' ≠ k) : alookup k (aerase k' l) = alookup k l := by
  induction l with
  | nil => simp [aerase]
  | cons p rest ih =>
    by_cases hp : p.1 = k'
    · have hpk : p.1 ≠ k := by rw [hp]; exact h
      rw [aerase, if_pos hp, alookup, if_neg hpk]
    · rw [aerase, if_neg hp, alookup, alookup]
      by_cases hk : p.1 = k
      · rw [if_pos hk, if_pos hk]
      · rw [if_neg hk, if_neg hk, ih]

theorem alookup_none_iff {β : Type} {k : String} {l : List (String × β)} :
    alookup k l = none ↔ k ∉ keysOf l := by
  induction l with
  | nil => simp [alookup, keysOf]
  | cons p rest ih =>
    by_cases hp : p.1 = k
    · simp [alookup, hp, keysOf]
    · simp [alookup, hp, keysOf, ih, Ne.symm hp]

theorem alookup_aerase_none {β : Type} {k k' : String} {l : List (String × β)}
    (h : alookup k l = none) : alookup k (aerase k' l) = none := by
  induction l with
  | nil => rfl
  | cons p rest ih =>
    by_cases hp : p.1 = k
    · rw [alookup, if_pos hp] at h
      exact absurd h (by simp)
    · rw [alookup, if_neg hp] at h
      by_cases hp' : p.1 = k'
      · rw [aerase, if_pos hp']
        exact h
      · rw [aerase, if_neg hp', alookup, if_neg hp]
        exact ih h

theorem alookup_aerase_self {β : Type} {k : String} {l : List (String × β)}
    (h : (keysOf l).Nodup) : alookup k (aerase k l) = none := by
  induction l with
  | nil => simp [aerase, alookup]
  | cons p rest ih =>
    rw [keysOf, List.map_cons, List.nodup_cons] at h
    by_cases hp : p.1 = k
    · rw [aerase, if_pos hp, alookup_none_iff]
      intro hk
      rw [hp] at h
      exact h.1 hk
    · rw [aerase, if_neg hp, alookup, if_neg hp]
      exact ih h.2

theorem mem_of_alookup {β : Type} {k : String} {v : β} {l : List (String × β)}
    (h : alookup k l = some v) : (k, v) ∈ l := by
  induction l with
  | nil => simp [alookup] at h
  | cons p rest ih =>
    by_cases hp : p.1 = k
    · rw [alookup, if_pos hp, Option.some_inj] at h
      have hpv : p = (k, v) := Prod.ext hp h
      rw [← hpv]
      exact List.mem_cons_self _ _
    · rw [alookup, if_neg hp] at h
      exact List.mem_cons_of_mem _ (ih h)

theorem alookup_isSome_of_mem_keys {β : Type} {k : String} {l : List (String × β)}
    (h : k ∈ keysOf l) : (alookup k l).isSome = true := by
  cases he : alookup k l with
  | none => exact absurd h (alookup_none_iff.mp he)
  | some v => rfl

theorem mem_aset {β : Type} {p : String × β} {k : String} {v : β} {l : List (String × β)}
    (h : p ∈ aset k v l) : p = (k, v) ∨ p ∈ l := by
  induction l with
  | nil => simpa [aset] using h
  | cons q rest ih =>
    by_cases hq : q.1 = k
    · rw [aset, if_pos hq] at h
      rcases List.mem_cons.mp h with h1 | h1
      · exact Or.inl h1
      · exact Or.inr (List.mem_cons_of_mem _ h1)
    · rw [aset, if_neg hq] at h
      rcases List.mem_cons.mp h with h1 | h1
      · exact Or.inr (h1 ▸ List.mem_cons_self _ _)
      · rcases ih h1 with h2 | h2
        · exact Or.inl h2
        · exact Or.inr (List.mem_cons_of_mem _ h2)

theorem mem_aerase {β : Type} {p : String × β} {k : String} {l : List (String × β)}
    (h : p ∈ aerase k l) : p ∈ l := by
  induction l with
  | nil => exact h
  | cons q rest ih =>
    by_cases hq : q.1 = k
    · rw [aerase, if_pos hq] at h
      exact List.mem_cons_of_mem _ h
    · rw [aerase, if_neg hq] at h
      rcases List.mem_cons.mp h with h1 | h1
      · exact h1 ▸ List.mem_cons_self _ _
      · exact List.mem_cons_of_mem _ (ih h1)

theorem aset_aset {β : Type} (k : String) (v v' : β) (l : List (String × β)) :
    aset k v (aset k v' l) = aset k v l := by
  induction l with
  | nil => simp [aset]
  | cons p rest ih =>
    by_cases hp : p.1 = k
    · simp [aset, hp]
    · simp [aset, hp, ih]

theorem keysOf_aerase_sublist {β : Type} (k : String) (l : List (String × β)) :
    List.Sublist (keysOf (aerase k l)) (keysOf l) := by
  induction l with
  | nil => simp [aerase]
  | cons p rest ih =>
    simp only [keysOf] at ih ⊢
    by_cases hp : p.1 = k
    · rw [aerase, if_pos hp, List.map_cons]
      exact List.sublist_cons_self _ _
    · rw [aerase, if_neg hp, List.map_cons, List.map_cons]
      exact List.Sublist.cons₂ _ ih

theorem keysOf_aerase_nodup {β : Type} {k : String} {l : List (String × β)}
    (h : (keysOf l).Nodup) : (keysOf (aerase k l)).Nodup :=
  (keysOf_aerase_sublist k l).nodup h

theorem keysOf_aset_nodup {β : Type} {k : String} {v : β} {l : List (String × β)}
    (h : (keysOf l).Nodup) : (keysOf (aset k v l)).Nodup := by
  induction l with
  | nil => simp [aset, keysOf]
  | cons p rest ih =>
    rw [keysOf, List.map_cons, List.nodup_cons] at h
    by_cases hp : p.1 = k
    · rw [aset, if_pos hp, keysOf, List.map_cons, List.nodup_cons]
      refine ⟨fun hk => h.1 ?_, h.2⟩
      rw [hp]
      exact hk
    · rw [aset, if_neg hp, keysOf, List.map_cons, List.nodup_cons]
      refine ⟨fun hk => ?_, ih h.2⟩
      rcases List.mem_map.mp hk with ⟨q, hq, hq1⟩
      rcases mem_aset hq with h1 | h1
      · rw [h1] at hq1
        exact hp hq1.symm
      · exact h.1 (List.mem_map.mpr ⟨q, h1, hq1⟩)

/-! Claims settled by direct computation. -/

/-- C7: for every payload that fails to parse as a destination-config mapping,
updateDestinations leaves the entire service state untouched (the very same
state is returned) and no reconciliation runs (no events are emitted). -/
theorem claim_c7 (env : Env) (s : Service) :
    s.updateDestinations env none = some (s, []) := rfl

/-- C10: when the in-memory destinations config fails to unmarshal, NewService
returns the freshly built service together with a nil error (instead of
failing startup), and every subsequent lookup on that service returns empty or
not-found. -/
theorem claim_c10 (reloadSec : Nat) (h : reloadSec ≠ 0) (env : Env) (t id : String) :
    NewService reloadSec env (some none) = .ok (some (emptyService, [])) ∧
    emptyService.GetConsumers t = [] ∧ emptyService.GetStorages t = [] ∧
    emptyService.GetDestinationIDs t = [] ∧ emptyService.GetStorageByID id = none := by
  refine ⟨?_, rfl, rfl, rfl, rfl⟩
  rw [NewService, if_neg h]

/-- Witness for C10 at concrete inputs. -/
theorem claim_c10_witness :
    NewService 1 envID (some none) = .ok (some (emptyService, [])) ∧
    emptyService.GetConsumers "t1" = [] ∧ emptyService.GetStorages "t1" = [] ∧
    emptyService.GetDestinationIDs "t1" = [] ∧ emptyService.GetStorageByID "a" = none :=
  claim_c10 1 (by decide) envID "t1" "a"

/-- C9 (code bug evidence): a staged batch destination is registered with its
full resolved token ids although the staged branch skipped logger creation and
the usage increment; the cycle that later removes it dereferences the missing
logger-registry entry (a nil pointer panic, modelled as none), so the removal
precondition the claim states is violated by a reachable state. -/
theorem claim_c9 :
    (emptyService.init envID [("d", cfgStagedV1)]).isSome = true ∧
    runStagedDelete = none := ⟨rfl, rfl⟩

/-- C1 (code bug evidence): in the second cycle of runStagedRecreate the
recreated non-staged batch destination registers shared logger 4; the staged
batch destination's recreation then wrongly decrements that logger's reference
count to zero and closes it; after the cycle, token t1's consumers map still
references logger 4 (GetConsumers returns it) although Close was called on it
exactly once, and destination a is live, refuting the claimed consequence that
no token's maps ever hold a reference to an already-closed resource. -/
theorem claim_c1 :
    (runStagedRecreate.map fun p =>
      (p.1.GetConsumers "t1", p.1.closed.count 4, (p.1.GetStorageByID "a").isSome)) =
    some ([4], 1, true) := rfl

/-- C5 counterexample: a creating cycle writes the unit registry and the
logger registry without holding the write lock (the create pass of
Service.init runs outside the Lock/Unlock pairs), so not every mutation of the
lock-protected structures happens under the lock. -/
theorem counterexample_c5 :
    (runCreate.map fun p =>
      (p.2.contains (Event.write .units false), p.2.contains (Event.write .loggers false))) =
    some (true, true) := rfl

/-- C6 counterexample: for a staged batch destination whose resolved token set
changes between two textually identical cycles, the hash indeed changes, but
the destination is not recreated: removing the old unit panics on the missing
logger-registry entry (modelled as none) and the cycle dies before
recreation. -/
theorem counterexample_c6 :
    (emptyService.init envID [("d", cfgStagedV1)]).isSome = true ∧
    runStagedResolutionChange = none := ⟨rfl, rfl⟩

/-! Unfolding equations in bind form for the recursive passes. -/

theorem removeAux_cons (lockHeld : Bool) (name : String) (u : Unit) (t : String)
    (rest : List String) (s : Service) :
    removeAux lockHeld name u (t :: rest) s =
      (removeTokenStep lockHeld name u s t).bind fun q1 =>
        (removeAux lockHeld name u rest q1.1).bind fun q2 => some (q2.1, q1.2 ++ q2.2) := by
  rcases h1 : removeTokenStep lockHeld name u s t with _ | ⟨s1, e1⟩
  · simp [removeAux, h1]
  · rcases h2 : removeAux lockHeld name u rest s1 with _ | ⟨s2, e2⟩
    · simp [removeAux, h1, h2]
    · simp [removeAux, h1, h2]

theorem deleteAux_cons (p : String × Unit) (rest : List (String × Unit)) (s : Service) :
    deleteAux (p :: rest) s =
      (s.remove true p.1 p.2).bind fun q1 =>
        (deleteAux rest q1.1).bind fun q2 => some (q2.1, q1.2 ++ q2.2) := by
  rcases h1 : s.remove true p.1 p.2 with _ | ⟨s1, e1⟩
  · simp [deleteAux, h1]
  · rcases h2 : deleteAux rest s1 with _ | ⟨s2, e2⟩
    · simp [deleteAux, h1, h2]
    · simp [deleteAux, h1, h2]

theorem createAux_cons (env : Env) (p : String × DestinationConfig)
    (rest : List (String × DestinationConfig)) (acc : Service × NewMaps × List Event) :
    createAux env (p :: rest) acc =
      (createStep env acc p).bind fun acc1 => createAux env rest acc1 := by
  rcases h1 : createStep env acc p with _ | acc1
  · simp [createAux, h1]
  · simp [createAux, h1]

theorem remove_eq (lockHeld : Bool) (name : String) (u : Unit) (s : Service) :
    s.remove lockHeld name u =
      (removeAux lockHeld name u u.tokenIDs s).map fun q =>
        ({ q.1 with closed := q.1.closed ++ u.closeIDs,
                    unitsByName := aerase name q.1.unitsByName },
         q.2 ++ [.write .units lockHeld, .removed name]) := by
  rcases h1 : removeAux lockHeld name u u.tokenIDs s with _ | ⟨s1, e1⟩
  · simp [Service.remove, h1]
  · simp [Service.remove, h1]

theorem init_eq (env : Env) (dc : List (String × DestinationConfig)) (s : Service) :
    s.init env dc =
      (deletePass dc s).bind fun q1 =>
        (createAux env dc (q1.1, emptyNewMaps, [])).bind fun q2 =>
          some (publish q2.1 q2.2.1, q1.2 ++ q2.2.2 ++ pubTrace) := by
  rcases h1 : deletePass dc s with _ | ⟨s1, e1⟩
  · simp [Service.init, h1]
  · rcases h2 : createAux env dc (s1, emptyNewMaps, []) with _ | ⟨s2, nm, e2⟩
    · simp [Service.init, h1, h2]
    · simp [Service.init, h1, h2, pubTrace]

/-! Lock discipline: every write to one of the three tokenized maps that a
reconciliation cycle records carries the write lock. -/

theorem tokenizedWritesLocked_append (a b : List Event) :
    tokenizedWritesLocked (a ++ b) = (tokenizedWritesLocked a && tokenizedWritesLocked b) :=
  List.all_append

theorem removeConsumerStage_locked {name : String} {u : Unit} {s : Service} {t : String}
    {r : List (String × Nat) × Service × List Event}
    (h : removeConsumerStage true name u s t = some r) :
    tokenizedWritesLocked r.2.2 = true := by
  simp only [removeConsumerStage] at h
  repeat' split at h
  all_goals first
    | (cases h; rfl)
    | (exact absurd h (by simp))

theorem writeBackConsumers_locked {t : String}
    {q : List (String × Nat) × Service × List Event}
    (hq : tokenizedWritesLocked q.2.2 = true) :
    tokenizedWritesLocked (writeBackConsumers true t q).2 = true := by
  rcases q with ⟨oc, s1, evs⟩
  have hevs : tokenizedWritesLocked evs = true := hq
  rw [writeBackConsumers]
  split
  · show tokenizedWritesLocked (evs ++ [.write .consumers true]) = true
    rw [tokenizedWritesLocked_append, hevs]
    rfl
  · exact hevs

theorem removeStorageEntry_locked {name t : String} {q : Service × List Event}
    (hq : tokenizedWritesLocked q.2 = true) :
    tokenizedWritesLocked (removeStorageEntry true name t q).2 = true := by
  rw [removeStorageEntry]
  rcases alookup t q.1.storagesByTokenID with _ | oldStorages
  · exact hq
  · show tokenizedWritesLocked (q.2 ++ [.write .storages true]) = true
    rw [tokenizedWritesLocked_append, hq]
    rfl

theorem removeIdEntry_locked {name t : String} {q : Service × List Event}
    (hq : tokenizedWritesLocked q.2 = true) :
    tokenizedWritesLocked (removeIdEntry true name t q).2 = true := by
  rw [removeIdEntry]
  rcases alookup t q.1.destinationsIDByTokenID with _ | ids0
  · exact hq
  · show tokenizedWritesLocked (q.2 ++ [.write .ids true]) = true
    rw [tokenizedWritesLocked_append, hq]
    rfl

theorem afterConsumerStage_locked {name t : String}
    {q : List (String × Nat) × Service × List Event}
    (hq : tokenizedWritesLocked q.2.2 = true) :
    tokenizedWritesLocked (afterConsumerStage true name t q).2 = true :=
  removeIdEntry_locked (removeStorageEntry_locked (writeBackConsumers_locked hq))

theorem removeTokenStep_locked {name : String} {u : Unit} {s : Service} {t : String}
    {r : Service × List Event} (h : removeTokenStep true name u s t = some r) :
    tokenizedWritesLocked r.2 = true := by
  rw [removeTokenStep] at h
  rcases Option.map_eq_some'.mp h with ⟨q, hq, hr⟩
  rw [← hr]
  exact afterConsumerStage_locked (removeConsumerStage_locked hq)

theorem removeAux_locked {name : String} {u : Unit} {ts : List String} {s : Service}
    {r : Service × List Event} (h : removeAux true name u ts s = some r) :
    tokenizedWritesLocked r.2 = true := by
  induction ts generalizing s r with
  | nil =>
    rw [removeAux] at h
    cases h
    rfl
  | cons t rest ih =>
    rw [removeAux_cons] at h
    rcases Option.bind_eq_some.mp h with ⟨q1, hq1, h2⟩
    rcases Option.bind_eq_some.mp h2 with ⟨q2, hq2, h3⟩
    cases h3
    show tokenizedWritesLocked (q1.2 ++ q2.2) = true
    rw [tokenizedWritesLocked_append, removeTokenStep_locked hq1, ih hq2]
    rfl

theorem remove_locked {name : String} {u : Unit} {s : Service}
    {r : Service × List Event} (h : s.remove true name u = some r) :
    tokenizedWritesLocked r.2 = true := by
  rw [remove_eq] at h
  rcases Option.map_eq_some'.mp h with ⟨q, hq, hr⟩
  rw [← hr]
  show tokenizedWritesLocked (q.2 ++ [.write .units true, .removed name]) = true
  rw [tokenizedWritesLocked_append, removeAux_locked hq]
  rfl

theorem deleteAux_locked {l : List (String × Unit)} {s : Service}
    {r : Service × List Event} (h : deleteAux l s = some r) :
    tokenizedWritesLocked r.2 = true := by
  induction l generalizing s r with
  | nil =>
    rw [deleteAux] at h
    cases h
    rfl
  | cons p rest ih =>
    rw [deleteAux_cons] at h
    rcases Option.bind_eq_some.mp h with ⟨q1, hq1, h2⟩
    rcases Option.bind_eq_some.mp h2 with ⟨q2, hq2, h3⟩
    cases h3
    show tokenizedWritesLocked (q1.2 ++ q2.2) = true
    rw [tokenizedWritesLocked_append, remove_locked hq1, ih hq2]
    rfl

theorem getOrCreateLogger_evs (s : Service) (t : String) :
    tokenizedWritesLocked (getOrCreateLogger s t).2.2 = true := by
  rw [getOrCreateLogger]
  rcases alookup t s.loggersUsageByTokenID with _ | lu
  · rfl
  · rfl

theorem consumerTokenStep_locked {cfg : DestinationConfig} {name : String}
    {q : Option Nat} {st : Nat} {acc : Service × NewMaps × List Event} {t : String}
    (h : tokenizedWritesLocked acc.2.2 = true) :
    tokenizedWritesLocked (consumerTokenStep cfg name q st acc t).2.2 = true := by
  rcases acc with ⟨s, nm, evs⟩
  have hevs : tokenizedWritesLocked evs = true := h
  rcases hG : getOrCreateLogger s t with ⟨lu0, s1, evsL⟩
  have hL : tokenizedWritesLocked evsL = true := by
    have h0 := getOrCreateLogger_evs s t
    rw [hG] at h0
    exact h0
  simp only [consumerTokenStep, hG]
  repeat' split
  · exact hevs
  · exact hevs
  · show tokenizedWritesLocked (evs ++ evsL ++ [.write .loggers false]) = true
    rw [tokenizedWritesLocked_append, tokenizedWritesLocked_append, hevs, hL]
    rfl

theorem tokensLoop_locked {cfg : DestinationConfig} {name : String} {q : Option Nat}
    {st : Nat} {acc : Service × NewMaps × List Event} {ts : List String}
    (h : tokenizedWritesLocked acc.2.2 = true) :
    tokenizedWritesLocked (tokensLoop cfg name q st acc ts).2.2 = true := by
  induction ts generalizing acc with
  | nil => exact h
  | cons t rest ih =>
    rw [tokensLoop]
    exact ih (consumerTokenStep_locked h)

theorem removeOldUnit_locked {name : String} {hash : String × DestinationConfig} {s : Service}
    {q : Service × List Event × Bool} (h : removeOldUnit name hash s = some q) :
    tokenizedWritesLocked q.2.1 = true := by
  rw [removeOldUnit] at h
  rcases hu : alookup name s.unitsByName with _ | u
  · simp only [hu] at h
    cases h
    rfl
  · simp only [hu] at h
    split at h
    · cases h
      rfl
    · rcases hr : s.remove true name u with _ | ⟨s1, e1⟩
      · rw [hr] at h
        exact absurd h (by simp)
      · rw [hr] at h
        simp only at h
        cases h
        exact remove_locked hr

theorem registerNew_locked {cfg : DestinationConfig} {name : String} {s1 : Service}
    {nm : NewMaps} {evs : List Event} (h : tokenizedWritesLocked evs = true) :
    tokenizedWritesLocked (registerNew cfg name s1 nm evs).2.2 = true := by
  rw [registerNew]
  refine tokensLoop_locked ?_
  show tokenizedWritesLocked
    (evs ++ [.created name, .write .units false, .registered name]) = true
  rw [tokenizedWritesLocked_append, h]
  rfl

theorem createStep_locked {env : Env} {acc r : Service × NewMaps × List Event}
    {p : String × DestinationConfig}
    (hacc : tokenizedWritesLocked acc.2.2 = true) (h : createStep env acc p = some r) :
    tokenizedWritesLocked r.2.2 = true := by
  rcases acc with ⟨s, nm, evs⟩
  have hevs : tokenizedWritesLocked evs = true := hacc
  simp only [createStep] at h
  rcases Option.bind_eq_some.mp h with ⟨q, hq, h2⟩
  have he1 : tokenizedWritesLocked q.2.1 = true := removeOldUnit_locked hq
  have happ : tokenizedWritesLocked (evs ++ q.2.1) = true := by
    rw [tokenizedWritesLocked_append, hevs, he1]
    rfl
  split at h2
  · cases h2
    exact happ
  · split at h2
    · cases h2
      exact happ
    · split at h2
      · cases h2
        exact happ
      · cases h2
        exact registerNew_locked happ

theorem createAux_locked {env : Env} {dc : List (String × DestinationConfig)}
    {acc : Service × NewMaps × List Event} {r : Service × NewMaps × List Event}
    (hacc : tokenizedWritesLocked acc.2.2 = true) (h : createAux env dc acc = some r) :
    tokenizedWritesLocked r.2.2 = true := by
  induction dc generalizing acc with
  | nil =>
    rw [createAux] at h
    cases h
    exact hacc
  | cons p rest ih =>
    rw [createAux_cons] at h
    rcases Option.bind_eq_some.mp h with ⟨acc1, h1, h2⟩
    exact ih (createStep_locked hacc h1) h2

/-- C5 (amended): in every completed reconciliation cycle, every recorded
write to one of the three tokenized maps was made while holding the write
lock; the counterexample shows the unit registry and the logger registry do
not enjoy the same protection during the create pass. -/
theorem claim_c5 (env : Env) (dc : List (String × DestinationConfig)) (s : Service)
    {r : Service × List Event} (h : s.init env dc = some r) :
    tokenizedWritesLocked r.2 = true := by
  rw [init_eq] at h
  rcases Option.bind_eq_some.mp h with ⟨q1, hq1, h2⟩
  rcases Option.bind_eq_some.mp h2 with ⟨q2, hq2, h3⟩
  cases h3
  show tokenizedWritesLocked (q1.2 ++ q2.2.2 ++ pubTrace) = true
  have hd : tokenizedWritesLocked q1.2 = true := by
    unfold deletePass at hq1
    exact deleteAux_locked hq1
  rw [tokenizedWritesLocked_append, tokenizedWritesLocked_append, hd,
    createAux_locked (by rfl) hq2]
  rfl

/-- Witness for C5 at a concrete creating cycle. -/
theorem claim_c5_witness : ∃ r, runCreate = some r ∧ tokenizedWritesLocked r.2 = true := by
  cases hr : runCreate with
  | none => exact absurd hr (by decide)
  | some r => exact ⟨r, rfl, claim_c5 envID [("a", cfgBatchV1), ("b", cfgStreamV1)] emptyService hr⟩

/-! Component behavior of the removal path. -/

theorem removeConsumerStage_spec {lockHeld : Bool} {name : String} {u : Unit} {s : Service}
    {t : String} {r : List (String × Nat) × Service × List Event}
    (h : removeConsumerStage lockHeld name u s t = some r) :
    r.2.1.unitsByName = s.unitsByName ∧
    r.2.1.nextHandle = s.nextHandle ∧
    r.2.1.consumersByTokenID = s.consumersByTokenID ∧
    r.2.1.storagesByTokenID = s.storagesByTokenID ∧
    r.2.1.destinationsIDByTokenID = s.destinationsIDByTokenID ∧
    (((∃ q0, u.eventQueue = some q0) ∧
      r.2.1.loggersUsageByTokenID = s.loggersUsageByTokenID ∧ r.2.1.closed = s.closed) ∨
     (∃ lu, u.eventQueue = none ∧ alookup t s.loggersUsageByTokenID = some lu ∧
        ((lu.usage - 1 = 0 ∧
          r.2.1.loggersUsageByTokenID = aerase t s.loggersUsageByTokenID ∧
          r.2.1.closed = s.closed ++ [lu.logger]) ∨
         (¬ lu.usage - 1 = 0 ∧
          r.2.1.loggersUsageByTokenID =
            aset t ⟨lu.logger, lu.usage - 1⟩ s.loggersUsageByTokenID ∧
          r.2.1.closed = s.closed)))) := by
  simp only [removeConsumerStage] at h
  split at h
  · rename_i q0 hq0
    cases h
    exact ⟨rfl, rfl, rfl, rfl, rfl, Or.inl ⟨⟨q0, hq0⟩, rfl, rfl⟩⟩
  · rename_i hq0
    split at h
    · exact absurd h (by simp)
    · rename_i lu hlu
      split at h
      · rename_i hz
        cases h
        exact ⟨rfl, rfl, rfl, rfl, rfl, Or.inr ⟨lu, hq0, hlu, Or.inl ⟨hz, rfl, rfl⟩⟩⟩
      · rename_i hz
        cases h
        exact ⟨rfl, rfl, rfl, rfl, rfl, Or.inr ⟨lu, hq0, hlu, Or.inr ⟨hz, rfl, rfl⟩⟩⟩

theorem writeBackConsumers_parts (lockHeld : Bool) (t : String)
    (q : List (String × Nat) × Service × List Event) :
    (writeBackConsumers lockHeld t q).1.unitsByName = q.2.1.unitsByName ∧
    (writeBackConsumers lockHeld t q).1.loggersUsageByTokenID = q.2.1.loggersUsageByTokenID ∧
    (writeBackConsumers lockHeld t q).1.nextHandle = q.2.1.nextHandle ∧
    (writeBackConsumers lockHeld t q).1.closed = q.2.1.closed ∧
    (writeBackConsumers lockHeld t q).1.storagesByTokenID = q.2.1.storagesByTokenID ∧
    (writeBackConsumers lockHeld t q).1.destinationsIDByTokenID = q.2.1.destinationsIDByTokenID := by
  rcases q with ⟨oc, s1, evs⟩
  rw [writeBackConsumers]
  split
  · exact ⟨rfl, rfl, rfl, rfl, rfl, rfl⟩
  · exact ⟨rfl, rfl, rfl, rfl, rfl, rfl⟩

theorem removeStorageEntry_parts (lockHeld : Bool) (name t : String)
    (q : Service × List Event) :
    (removeStorageEntry lockHeld name t q).1.unitsByName = q.1.unitsByName ∧
    (removeStorageEntry lockHeld name t q).1.loggersUsageByTokenID = q.1.loggersUsageByTokenID ∧
    (removeStorageEntry lockHeld name t q).1.nextHandle = q.1.nextHandle ∧
    (removeStorageEntry lockHeld name t q).1.closed = q.1.closed ∧
    (removeStorageEntry lockHeld name t q).1.consumersByTokenID = q.1.consumersByTokenID ∧
    (removeStorageEntry lockHeld name t q).1.destinationsIDByTokenID =
      q.1.destinationsIDByTokenID := by
  rw [removeStorageEntry]
  rcases alookup t q.1.storagesByTokenID with _ | oldStorages
  · exact ⟨rfl, rfl, rfl, rfl, rfl, rfl⟩
  · dsimp only
    by_cases hos : aerase name oldStorages = []
    · rw [if_pos hos]
      exact ⟨rfl, rfl, rfl, rfl, rfl, rfl⟩
    · rw [if_neg hos]
      exact ⟨rfl, rfl, rfl, rfl, rfl, rfl⟩

theorem removeIdEntry_parts (lockHeld : Bool) (name t : String)
    (q : Service × List Event) :
    (removeIdEntry lockHeld name t q).1.unitsByName = q.1.unitsByName ∧
    (removeIdEntry lockHeld name t q).1.loggersUsageByTokenID = q.1.loggersUsageByTokenID ∧
    (removeIdEntry lockHeld name t q).1.nextHandle = q.1.nextHandle ∧
    (removeIdEntry lockHeld name t q).1.closed = q.1.closed ∧
    (removeIdEntry lockHeld name t q).1.consumersByTokenID = q.1.consumersByTokenID ∧
    (removeIdEntry lockHeld name t q).1.storagesByTokenID = q.1.storagesByTokenID := by
  rw [removeIdEntry]
  rcases alookup t q.1.destinationsIDByTokenID with _ | ids0
  · exact ⟨rfl, rfl, rfl, rfl, rfl, rfl⟩
  · dsimp only
    by_cases hos : ids0.erase name = []
    · rw [if_pos hos]
      exact ⟨rfl, rfl, rfl, rfl, rfl, rfl⟩
    · rw [if_neg hos]
      exact ⟨rfl, rfl, rfl, rfl, rfl, rfl⟩

theorem afterConsumerStage_parts (lockHeld : Bool) (name t : String)
    (q : List (String × Nat) × Service × List Event) :
    (afterConsumerStage lockHeld name t q).1.unitsByName = q.2.1.unitsByName ∧
    (afterConsumerStage lockHeld name t q).1.loggersUsageByTokenID =
      q.2.1.loggersUsageByTokenID ∧
    (afterConsumerStage lockHeld name t q).1.nextHandle = q.2.1.nextHandle ∧
    (afterConsumerStage lockHeld name t q).1.closed = q.2.1.closed := by
  have h1 := writeBackConsumers_parts lockHeld t q
  have h2 := removeStorageEntry_parts lockHeld name t (writeBackConsumers lockHeld t q)
  have h3 := removeIdEntry_parts lockHeld name t
    (removeStorageEntry lockHeld name t (writeBackConsumers lockHeld t q))
  rw [afterConsumerStage]
  exact ⟨h3.1.trans (h2.1.trans h1.1), h3.2.1.trans (h2.2.1.trans h1.2.1),
    h3.2.2.1.trans (h2.2.2.1.trans h1.2.2.1), h3.2.2.2.1.trans (h2.2.2.2.1.trans h1.2.2.2.1)⟩

theorem removeTokenStep_spec {lockHeld : Bool} {name : String} {u : Unit} {s : Service}
    {t : String} {r : Service × List Event}
    (h : removeTokenStep lockHeld name u s t = some r) :
    r.1.unitsByName = s.unitsByName ∧
    r.1.nextHandle = s.nextHandle ∧
    (((∃ q0, u.eventQueue = some q0) ∧
      r.1.loggersUsageByTokenID = s.loggersUsageByTokenID ∧ r.1.closed = s.closed) ∨
     (∃ lu, u.eventQueue = none ∧ alookup t s.loggersUsageByTokenID = some lu ∧
        ((lu.usage - 1 = 0 ∧
          r.1.loggersUsageByTokenID = aerase t s.loggersUsageByTokenID ∧
          r.1.closed = s.closed ++ [lu.logger]) ∨
         (¬ lu.usage - 1 = 0 ∧
          r.1.loggersUsageByTokenID =
            aset t ⟨lu.logger, lu.usage - 1⟩ s.loggersUsageByTokenID ∧
          r.1.closed = s.closed)))) := by
  rw [removeTokenStep] at h
  rcases Option.map_eq_some'.mp h with ⟨q, hq, hr⟩
  have hp := afterConsumerStage_parts lockHeld name t q
  rw [hr] at hp
  have hs := removeConsumerStage_spec hq
  refine ⟨hp.1.trans hs.1, hp.2.2.1.trans hs.2.1, ?_⟩
  rcases hs.2.2.2.2.2 with ⟨hq0, hl, hc⟩ | ⟨lu, hq0, hlu, hcase⟩
  · exact Or.inl ⟨hq0, hp.2.1.trans hl, hp.2.2.2.trans hc⟩
  · refine Or.inr ⟨lu, hq0, hlu, ?_⟩
    rcases hcase with ⟨hz, hl, hc⟩ | ⟨hz, hl, hc⟩
    · exact Or.inl ⟨hz, hp.2.1.trans hl, hp.2.2.2.trans hc⟩
    · exact Or.inr ⟨hz, hp.2.1.trans hl, hp.2.2.2.trans hc⟩

/-- UsageInv transfers along registry equality. -/
theorem usageInv_of_eq {s s' : Service}
    (h : s'.loggersUsageByTokenID = s.loggersUsageByTokenID) (hs : UsageInv s) :
    UsageInv s' := by
  intro p hp
  rw [h] at hp
  exact hs p hp

theorem usageInv_removeTokenStep {lockHeld : Bool} {name : String} {u : Unit} {s : Service}
    {t : String} {r : Service × List Event} (h : removeTokenStep lockHeld name u s t = some r)
    (hs : UsageInv s) : UsageInv r.1 := by
  rcases (removeTokenStep_spec h).2.2 with ⟨_, hl, _⟩ | ⟨lu, _, hlu, hcase⟩
  · exact usageInv_of_eq hl hs
  · rcases hcase with ⟨hz, hl, _⟩ | ⟨hz, hl, _⟩
    · intro p hp
      rw [hl] at hp
      exact hs p (mem_aerase hp)
    · intro p hp
      rw [hl] at hp
      rcases mem_aset hp with h1 | h1
      · have h2 := hs (t, lu) (mem_of_alookup hlu)
        rw [h1]
        simp only at h2 ⊢
        omega
      · exact hs p h1

theorem nodupReg_removeTokenStep {lockHeld : Bool} {name : String} {u : Unit} {s : Service}
    {t : String} {r : Service × List Event} (h : removeTokenStep lockHeld name u s t = some r)
    (hn : (keysOf s.loggersUsageByTokenID).Nodup) :
    (keysOf r.1.loggersUsageByTokenID).Nodup := by
  rcases (removeTokenStep_spec h).2.2 with ⟨_, hl, _⟩ | ⟨lu, _, hlu, hcase⟩
  · rw [hl]
    exact hn
  · rcases hcase with ⟨_, hl, _⟩ | ⟨_, hl, _⟩
    · rw [hl]
      exact keysOf_aerase_nodup hn
    · rw [hl]
      exact keysOf_aset_nodup hn

theorem removeAux_spec {lockHeld : Bool} {name : String} {u : Unit} {ts : List String}
    {s : Service} {r : Service × List Event} (h : removeAux lockHeld name u ts s = some r) :
    r.1.unitsByName = s.unitsByName ∧ r.1.nextHandle = s.nextHandle ∧
    (UsageInv s → UsageInv r.1) ∧
    ((keysOf s.loggersUsageByTokenID).Nodup → (keysOf r.1.loggersUsageByTokenID).Nodup) := by
  induction ts generalizing s r with
  | nil =>
    rw [removeAux] at h
    cases h
    exact ⟨rfl, rfl, id, id⟩
  | cons t rest ih =>
    rw [removeAux_cons] at h
    rcases Option.bind_eq_some.mp h with ⟨q1, hq1, h2⟩
    rcases Option.bind_eq_some.mp h2 with ⟨q2, hq2, h3⟩
    cases h3
    have hs1 := removeTokenStep_spec hq1
    have hrest := ih hq2
    refine ⟨hrest.1.trans hs1.1, hrest.2.1.trans hs1.2.1, ?_, ?_⟩
    · exact fun hs => hrest.2.2.1 (usageInv_removeTokenStep hq1 hs)
    · exact fun hn => hrest.2.2.2 (nodupReg_removeTokenStep hq1 hn)

theorem remove_spec {lockHeld : Bool} {name : String} {u : Unit} {s : Service}
    {r : Service × List Event} (h : s.remove lockHeld name u = some r) :
    r.1.unitsByName = aerase name s.unitsByName ∧ r.1.nextHandle = s.nextHandle ∧
    (UsageInv s → UsageInv r.1) ∧
    ((keysOf s.loggersUsageByTokenID).Nodup → (keysOf r.1.loggersUsageByTokenID).Nodup) ∧
    ((keysOf s.unitsByName).Nodup → (keysOf r.1.unitsByName).Nodup) := by
  rw [remove_eq] at h
  rcases Option.map_eq_some'.mp h with ⟨q, hq, hr⟩
  have hs := removeAux_spec hq
  rw [← hr]
  refine ⟨?_, ?_, ?_, ?_, ?_⟩
  · show aerase name q.1.unitsByName = aerase name s.unitsByName
    rw [hs.1]
  · exact hs.2.1
  · intro hinv
    exact usageInv_of_eq (show q.1.loggersUsageByTokenID = q.1.loggersUsageByTokenID from rfl)
      (hs.2.2.1 hinv)
  · exact hs.2.2.2
  · intro hn
    show (keysOf (aerase name q.1.unitsByName)).Nodup
    rw [hs.1]
    exact keysOf_aerase_nodup hn

theorem deleteAux_spec {l : List (String × Unit)} {s : Service} {r : Service × List Event}
    (h : deleteAux l s = some r) :
    r.1.nextHandle = s.nextHandle ∧
    (UsageInv s → UsageInv r.1) ∧
    ((keysOf s.loggersUsageByTokenID).Nodup → (keysOf r.1.loggersUsageByTokenID).Nodup) ∧
    ((keysOf s.unitsByName).Nodup → (keysOf r.1.unitsByName).Nodup) := by
  induction l generalizing s r with
  | nil =>
    rw [deleteAux] at h
    cases h
    exact ⟨rfl, id, id, id⟩
  | cons p rest ih =>
    rw [deleteAux_cons] at h
    rcases Option.bind_eq_some.mp h with ⟨q1, hq1, h2⟩
    rcases Option.bind_eq_some.mp h2 with ⟨q2, hq2, h3⟩
    cases h3
    have hs1 := remove_spec hq1
    have hrest := ih hq2
    refine ⟨hrest.1.trans hs1.2.1, ?_, ?_, ?_⟩
    · exact fun hs => hrest.2.1 (hs1.2.2.1 hs)
    · exact fun hn => hrest.2.2.1 (hs1.2.2.2.1 hn)
    · exact fun hn => hrest.2.2.2 (hs1.2.2.2.2 hn)

theorem deleteAux_lookup_preserved {l : List (String × Unit)} {s : Service}
    {r : Service × List Event} {k : String} (h : deleteAux l s = some r)
    (hk : k ∉ keysOf l) : alookup k r.1.unitsByName = alookup k s.unitsByName := by
  induction l generalizing s r with
  | nil =>
    rw [deleteAux] at h
    cases h
    rfl
  | cons p rest ih =>
    rw [deleteAux_cons] at h
    rcases Option.bind_eq_some.mp h with ⟨q1, hq1, h2⟩
    rcases Option.bind_eq_some.mp h2 with ⟨q2, hq2, h3⟩
    cases h3
    rw [keysOf, List.map_cons] at hk
    have hne : p.1 ≠ k := fun he => hk (he ▸ List.mem_cons_self _ _)
    have hrest : k ∉ keysOf rest := fun he => hk (List.mem_cons_of_mem _ he)
    show alookup k q2.1.unitsByName = alookup k s.unitsByName
    rw [ih hq2 hrest, (remove_spec hq1).1, alookup_aerase_ne _ hne]

theorem deleteAux_mono_none {l : List (String × Unit)} {s : Service}
    {r : Service × List Event} {k : String} (h : deleteAux l s = some r)
    (hk : alookup k s.unitsByName = none) : alookup k r.1.unitsByName = none := by
  induction l generalizing s r with
  | nil =>
    rw [deleteAux] at h
    cases h
    exact hk
  | cons p rest ih =>
    rw [deleteAux_cons] at h
    rcases Option.bind_eq_some.mp h with ⟨q1, hq1, h2⟩
    rcases Option.bind_eq_some.mp h2 with ⟨q2, hq2, h3⟩
    cases h3
    show alookup k q2.1.unitsByName = none
    refine ih hq2 ?_
    rw [(remove_spec hq1).1]
    exact alookup_aerase_none hk

theorem deleteAux_erases {l : List (String × Unit)} {s : Service} {r : Service × List Event}
    {k : String} (h : deleteAux l s = some r) (hn : (keysOf s.unitsByName).Nodup)
    (hk : k ∈ keysOf l) : alookup k r.1.unitsByName = none := by
  induction l generalizing s r with
  | nil => simp [keysOf] at hk
  | cons p rest ih =>
    rw [deleteAux_cons] at h
    rcases Option.bind_eq_some.mp h with ⟨q1, hq1, h2⟩
    rcases Option.bind_eq_some.mp h2 with ⟨q2, hq2, h3⟩
    cases h3
    rw [keysOf, List.map_cons] at hk
    show alookup k q2.1.unitsByName = none
    by_cases hkp : k = p.1
    · refine deleteAux_mono_none hq2 ?_
      rw [(remove_spec hq1).1, hkp]
      exact alookup_aerase_self hn
    · rcases List.mem_cons.mp hk with h1 | h1
      · exact absurd h1 hkp
      · exact ih hq2 ((remove_spec hq1).2.2.2.2 hn) h1

/-! Behavior of the create pass. -/

theorem getOrCreateLogger_some {s : Service} {t : String} {lu : LoggerUsage}
    (h : alookup t s.loggersUsageByTokenID = some lu) :
    getOrCreateLogger s t = (lu, s, []) := by
  simp [getOrCreateLogger, h]

theorem getOrCreateLogger_none {s : Service} {t : String}
    (h : alookup t s.loggersUsageByTokenID = none) :
    getOrCreateLogger s t = (⟨s.nextHandle, 0⟩,
      { s with nextHandle := s.nextHandle + 1,
               loggersUsageByTokenID := aset t ⟨s.nextHandle, 0⟩ s.loggersUsageByTokenID },
      [.write .loggers false]) := by
  simp [getOrCreateLogger, h]

theorem consumerTokenStep_staged {cfg : DestinationConfig} {name : String} {q : Option Nat}
    {st : Nat} {s : Service} {nm : NewMaps} {evs : List Event} {t : String}
    (hstaged : cfg.Staged = true) :
    consumerTokenStep cfg name q st (s, nm, evs) t = (s, nm, evs) := by
  simp [consumerTokenStep, hstaged]

theorem consumerTokenStep_stream {cfg : DestinationConfig} {name : String} {q : Option Nat}
    {st : Nat} {s : Service} {nm : NewMaps} {evs : List Event} {t : String}
    (hstaged : cfg.Staged = false) (hmode : cfg.Mode = StreamMode) :
    consumerTokenStep cfg name q st (s, nm, evs) t =
      (s, { nm with newIDs := idAdd nm.newIDs t name,
                    newConsumers := tokAdd nm.newConsumers t name (q.getD 0) }, evs) := by
  simp [consumerTokenStep, hstaged, hmode]

theorem consumerTokenStep_batch_some {cfg : DestinationConfig} {name : String} {q : Option Nat}
    {st : Nat} {s : Service} {nm : NewMaps} {evs : List Event} {t : String} {lu : LoggerUsage}
    (hstaged : cfg.Staged = false) (hmode : ¬ cfg.Mode = StreamMode)
    (hlu : alookup t s.loggersUsageByTokenID = some lu) :
    consumerTokenStep cfg name q st (s, nm, evs) t =
      ({ s with
           loggersUsageByTokenID := aset t ⟨lu.logger, lu.usage + 1⟩ s.loggersUsageByTokenID },
       { nm with newIDs := idAdd nm.newIDs t name,
                 newConsumers := tokAdd nm.newConsumers t t lu.logger,
                 newStorages := tokAdd nm.newStorages t name st },
       evs ++ [.write .loggers false]) := by
  simp [consumerTokenStep, hstaged, hmode, getOrCreateLogger_some hlu]

theorem consumerTokenStep_batch_none {cfg : DestinationConfig} {name : String} {q : Option Nat}
    {st : Nat} {s : Service} {nm : NewMaps} {evs : List Event} {t : String}
    (hstaged : cfg.Staged = false) (hmode : ¬ cfg.Mode = StreamMode)
    (hlu : alookup t s.loggersUsageByTokenID = none) :
    consumerTokenStep cfg name q st (s, nm, evs) t =
      ({ s with nextHandle := s.nextHandle + 1,
                loggersUsageByTokenID := aset t ⟨s.nextHandle, 1⟩ s.loggersUsageByTokenID },
       { nm with newIDs := idAdd nm.newIDs t name,
                 newConsumers := tokAdd nm.newConsumers t t s.nextHandle,
                 newStorages := tokAdd nm.newStorages t name st },
       evs ++ [.write .loggers false, .write .loggers false]) := by
  simp [consumerTokenStep, hstaged, hmode, getOrCreateLogger_none hlu, aset_aset]

theorem bool_eq_false_of_ne_true {b : Bool} (h : ¬ b = true) : b = false := by
  cases b
  · rfl
  · exact absurd rfl h

theorem consumerTokenStep_units {cfg : DestinationConfig} {name : String} {q : Option Nat}
    {st : Nat} {t : String} (acc : Service × NewMaps × List Event) :
    (consumerTokenStep cfg name q st acc t).1.unitsByName = acc.1.unitsByName ∧
    (consumerTokenStep cfg name q st acc t).1.closed = acc.1.closed ∧
    (consumerTokenStep cfg name q st acc t).1.consumersByTokenID = acc.1.consumersByTokenID ∧
    (consumerTokenStep cfg name q st acc t).1.storagesByTokenID = acc.1.storagesByTokenID ∧
    (consumerTokenStep cfg name q st acc t).1.destinationsIDByTokenID =
      acc.1.destinationsIDByTokenID := by
  rcases acc with ⟨s, nm, evs⟩
  by_cases hstaged : cfg.Staged = true
  · rw [consumerTokenStep_staged hstaged]
    exact ⟨rfl, rfl, rfl, rfl, rfl⟩
  · have hs2 := bool_eq_false_of_ne_true hstaged
    by_cases hmode : cfg.Mode = StreamMode
    · rw [consumerTokenStep_stream hs2 hmode]
      exact ⟨rfl, rfl, rfl, rfl, rfl⟩
    · rcases hlu : alookup t s.loggersUsageByTokenID with _ | lu
      · rw [consumerTokenStep_batch_none hs2 hmode hlu]
        exact ⟨rfl, rfl, rfl, rfl, rfl⟩
      · rw [consumerTokenStep_batch_some hs2 hmode hlu]
        exact ⟨rfl, rfl, rfl, rfl, rfl⟩

theorem usageInv_consumerTokenStep {cfg : DestinationConfig} {name : String} {q : Option Nat}
    {st : Nat} {t : String} {acc : Service × NewMaps × List Event}
    (hs : UsageInv acc.1) : UsageInv (consumerTokenStep cfg name q st acc t).1 := by
  rcases acc with ⟨s, nm, evs⟩
  have hss : UsageInv s := hs
  by_cases hstaged : cfg.Staged = true
  · rw [consumerTokenStep_staged hstaged]
    exact hss
  · have hs2 := bool_eq_false_of_ne_true hstaged
    by_cases hmode : cfg.Mode = StreamMode
    · rw [consumerTokenStep_stream hs2 hmode]
      exact hss
    · rcases hlu : alookup t s.loggersUsageByTokenID with _ | lu
      · rw [consumerTokenStep_batch_none hs2 hmode hlu]
        intro p hp
        rcases mem_aset hp with h1 | h1
        · rw [h1]
        · exact hss p h1
      · rw [consumerTokenStep_batch_some hs2 hmode hlu]
        intro p hp
        rcases mem_aset hp with h1 | h1
        · have h2 := hss (t, lu) (mem_of_alookup hlu)
          rw [h1]
          simp only at h2 ⊢
          omega
        · exact hss p h1

theorem nodupReg_consumerTokenStep {cfg : DestinationConfig} {name : String} {q : Option Nat}
    {st : Nat} {t : String} {acc : Service × NewMaps × List Event}
    (hn : (keysOf acc.1.loggersUsageByTokenID).Nodup) :
    (keysOf (consumerTokenStep cfg name q st acc t).1.loggersUsageByTokenID).Nodup := by
  rcases acc with ⟨s, nm, evs⟩
  have hns : (keysOf s.loggersUsageByTokenID).Nodup := hn
  by_cases hstaged : cfg.Staged = true
  · rw [consumerTokenStep_staged hstaged]
    exact hns
  · have hs2 := bool_eq_false_of_ne_true hstaged
    by_cases hmode : cfg.Mode = StreamMode
    · rw [consumerTokenStep_stream hs2 hmode]
      exact hns
    · rcases hlu : alookup t s.loggersUsageByTokenID with _ | lu
      · rw [consumerTokenStep_batch_none hs2 hmode hlu]
        exact keysOf_aset_nodup hns
      · rw [consumerTokenStep_batch_some hs2 hmode hlu]
        exact keysOf_aset_nodup hns

theorem tokensLoop_units {cfg : DestinationConfig} {name : String} {q : Option Nat}
    {st : Nat} {ts : List String} (acc : Service × NewMaps × List Event) :
    (tokensLoop cfg name q st acc ts).1.unitsByName = acc.1.unitsByName ∧
    (tokensLoop cfg name q st acc ts).1.closed = acc.1.closed := by
  induction ts generalizing acc with
  | nil => exact ⟨rfl, rfl⟩
  | cons t rest ih =>
    rw [tokensLoop]
    have h1 := @consumerTokenStep_units cfg name q st t acc
    have h2 := ih (consumerTokenStep cfg name q st acc t)
    exact ⟨h2.1.trans h1.1, h2.2.trans h1.2.1⟩

theorem usageInv_tokensLoop {cfg : DestinationConfig} {name : String} {q : Option Nat}
    {st : Nat} {ts : List String} {acc : Service × NewMaps × List Event}
    (hs : UsageInv acc.1) : UsageInv (tokensLoop cfg name q st acc ts).1 := by
  induction ts generalizing acc with
  | nil => exact hs
  | cons t rest ih =>
    rw [tokensLoop]
    exact ih (usageInv_consumerTokenStep hs)

theorem nodupReg_tokensLoop {cfg : DestinationConfig} {name : String} {q : Option Nat}
    {st : Nat} {ts : List String} {acc : Service × NewMaps × List Event}
    (hn : (keysOf acc.1.loggersUsageByTokenID).Nodup) :
    (keysOf (tokensLoop cfg name q st acc ts).1.loggersUsageByTokenID).Nodup := by
  induction ts generalizing acc with
  | nil => exact hn
  | cons t rest ih =>
    rw [tokensLoop]
    exact ih (nodupReg_consumerTokenStep hn)

theorem registerNew_units (cfg : DestinationConfig) (name : String) (s1 : Service)
    (nm : NewMaps) (evs : List Event) :
    (registerNew cfg name s1 nm evs).1.unitsByName =
      aset name ⟨(if cfg.Mode = StreamMode then some (s1.nextHandle + 1) else none),
        s1.nextHandle, cfg.OnlyTokens, getHash name cfg⟩ s1.unitsByName := by
  rw [registerNew]
  rw [(tokensLoop_units _).1]

theorem usageInv_registerNew {cfg : DestinationConfig} {name : String} {s1 : Service}
    {nm : NewMaps} {evs : List Event} (hs : UsageInv s1) :
    UsageInv (registerNew cfg name s1 nm evs).1 := by
  rw [registerNew]
  exact usageInv_tokensLoop hs

theorem nodupReg_registerNew {cfg : DestinationConfig} {name : String} {s1 : Service}
    {nm : NewMaps} {evs : List Event} (hn : (keysOf s1.loggersUsageByTokenID).Nodup) :
    (keysOf (registerNew cfg name s1 nm evs).1.loggersUsageByTokenID).Nodup := by
  rw [registerNew]
  exact nodupReg_tokensLoop hn

theorem nodupUnits_registerNew {cfg : DestinationConfig} {name : String} {s1 : Service}
    {nm : NewMaps} {evs : List Event} (hn : (keysOf s1.unitsByName).Nodup) :
    (keysOf (registerNew cfg name s1 nm evs).1.unitsByName).Nodup := by
  rw [registerNew_units]
  exact keysOf_aset_nodup hn

theorem removeOldUnit_spec {name : String} {hash : String × DestinationConfig} {s : Service}
    {q : Service × List Event × Bool} (h : removeOldUnit name hash s = some q) :
    (q.2.2 = true ∧ q.1 = s ∧ q.2.1 = [] ∧
      ∃ u, alookup name s.unitsByName = some u ∧ u.hash = hash) ∨
    (q.2.2 = false ∧ q.1 = s ∧ q.2.1 = [] ∧ alookup name s.unitsByName = none) ∨
    (q.2.2 = false ∧ ∃ u, alookup name s.unitsByName = some u ∧ ¬ u.hash = hash ∧
      s.remove true name u = some (q.1, q.2.1)) := by
  rw [removeOldUnit] at h
  rcases hu : alookup name s.unitsByName with _ | u
  · simp only [hu] at h
    cases h
    exact Or.inr (Or.inl ⟨rfl, rfl, rfl, rfl⟩)
  · simp only [hu] at h
    split at h
    · rename_i hhash
      cases h
      exact Or.inl ⟨rfl, rfl, rfl, u, rfl, hhash⟩
    · rename_i hhash
      rcases hr : s.remove true name u with _ | ⟨s1, e1⟩
      · rw [hr] at h
        exact absurd h (by simp)
      · rw [hr] at h
        simp only at h
        cases h
        exact Or.inr (Or.inr ⟨rfl, u, rfl, hhash, hr⟩)

/-! Invariant preservation through a whole cycle. -/

theorem createStep_inv {env : Env} {acc r : Service × NewMaps × List Event}
    {p : String × DestinationConfig} (h : createStep env acc p = some r) :
    (UsageInv acc.1 → UsageInv r.1) ∧
    ((keysOf acc.1.loggersUsageByTokenID).Nodup →
      (keysOf r.1.loggersUsageByTokenID).Nodup) ∧
    ((keysOf acc.1.unitsByName).Nodup → (keysOf r.1.unitsByName).Nodup) := by
  rcases acc with ⟨s, nm, evs⟩
  simp only [createStep] at h
  rcases Option.bind_eq_some.mp h with ⟨q, hq, h2⟩
  have hmid : (UsageInv s → UsageInv q.1) ∧
      ((keysOf s.loggersUsageByTokenID).Nodup → (keysOf q.1.loggersUsageByTokenID).Nodup) ∧
      ((keysOf s.unitsByName).Nodup → (keysOf q.1.unitsByName).Nodup) := by
    rcases removeOldUnit_spec hq with ⟨_, hqs, _, _⟩ | ⟨_, hqs, _, _⟩ | ⟨_, u, _, _, hrem⟩
    · rw [hqs]
      exact ⟨id, id, id⟩
    · rw [hqs]
      exact ⟨id, id, id⟩
    · have hspec := remove_spec hrem
      refine ⟨hspec.2.2.1, hspec.2.2.2.1, fun hn => ?_⟩
      have := hspec.2.2.2.2 hn
      exact this
  split at h2
  · cases h2
    exact hmid
  · split at h2
    · cases h2
      exact hmid
    · split at h2
      · cases h2
        exact hmid
      · cases h2
        refine ⟨fun hs => usageInv_registerNew (hmid.1 hs),
          fun hn => nodupReg_registerNew (hmid.2.1 hn),
          fun hn => nodupUnits_registerNew (hmid.2.2 hn)⟩

theorem createAux_inv {env : Env} {dc : List (String × DestinationConfig)}
    {acc r : Service × NewMaps × List Event} (h : createAux env dc acc = some r) :
    (UsageInv acc.1 → UsageInv r.1) ∧
    ((keysOf acc.1.loggersUsageByTokenID).Nodup →
      (keysOf r.1.loggersUsageByTokenID).Nodup) ∧
    ((keysOf acc.1.unitsByName).Nodup → (keysOf r.1.unitsByName).Nodup) := by
  induction dc generalizing acc with
  | nil =>
    rw [createAux] at h
    cases h
    exact ⟨id, id, id⟩
  | cons p rest ih =>
    rw [createAux_cons] at h
    rcases Option.bind_eq_some.mp h with ⟨acc1, h1, h2⟩
    have hstep := createStep_inv h1
    have hrest := ih h2
    exact ⟨fun hs => hrest.1 (hstep.1 hs), fun hn => hrest.2.1 (hstep.2.1 hn),
      fun hn => hrest.2.2 (hstep.2.2 hn)⟩

theorem publish_parts (s : Service) (nm : NewMaps) :
    (publish s nm).unitsByName = s.unitsByName ∧
    (publish s nm).loggersUsageByTokenID = s.loggersUsageByTokenID ∧
    (publish s nm).nextHandle = s.nextHandle ∧
    (publish s nm).closed = s.closed :=
  ⟨rfl, rfl, rfl, rfl⟩

theorem init_inv {env : Env} {dc : List (String × DestinationConfig)} {s : Service}
    {r : Service × List Event} (h : s.init env dc = some r) :
    (UsageInv s → UsageInv r.1) ∧
    ((keysOf s.loggersUsageByTokenID).Nodup →
      (keysOf r.1.loggersUsageByTokenID).Nodup) ∧
    ((keysOf s.unitsByName).Nodup → (keysOf r.1.unitsByName).Nodup) := by
  rw [init_eq] at h
  rcases Option.bind_eq_some.mp h with ⟨q1, hq1, h2⟩
  rcases Option.bind_eq_some.mp h2 with ⟨q2, hq2, h3⟩
  cases h3
  unfold deletePass at hq1
  have hdel := deleteAux_spec hq1
  have hcre := createAux_inv hq2
  have hpub := publish_parts q2.1 q2.2.1
  refine ⟨fun hs => ?_, fun hn => ?_, fun hn => ?_⟩
  · exact usageInv_of_eq hpub.2.1 (hcre.1 (hdel.2.1 hs))
  · show (keysOf (publish q2.1 q2.2.1).loggersUsageByTokenID).Nodup
    rw [hpub.2.1]
    exact hcre.2.1 (hdel.2.2.1 hn)
  · show (keysOf (publish q2.1 q2.2.1).unitsByName).Nodup
    rw [hpub.1]
    exact hcre.2.2 (hdel.2.2.2 hn)

theorem reachable_facts {s : Service} (h : Reachable s) :
    UsageInv s ∧ (keysOf s.unitsByName).Nodup ∧
    (keysOf s.loggersUsageByTokenID).Nodup := by
  induction h with
  | base =>
    refine ⟨fun p hp => ?_, ?_, ?_⟩
    · exact absurd hp (by simp [emptyService])
    · simp [emptyService, keysOf]
    · simp [emptyService, keysOf]
  | step hreach hnd hinit ih =>
    rename_i s0 s1 env dc evs
    have hi := init_inv hinit
    exact ⟨hi.1 ih.1, hi.2.2 ih.2.1, hi.2.1 ih.2.2⟩

/-- C2: in every state reachable by reconciliation cycles, every live
logger-registry entry has a non-negative (in fact positive) reference count;
and whenever the removal of a batch unit decrements a token's count to zero,
the token's registry entry is deleted and the shared logger is closed. -/
theorem claim_c2 (s : Service) (hs : Reachable s) :
    (∀ t lu, alookup t s.loggersUsageByTokenID = some lu → 0 ≤ lu.usage) ∧
    (∀ lockHeld name u tokenID lu r, u.eventQueue = none →
      alookup tokenID s.loggersUsageByTokenID = some lu →
      removeTokenStep lockHeld name u s tokenID = some r →
      lu.usage - 1 = 0 →
      alookup tokenID r.1.loggersUsageByTokenID = none ∧ lu.logger ∈ r.1.closed) := by
  obtain ⟨hinv, hnu, hnr⟩ := reachable_facts hs
  refine ⟨?_, ?_⟩
  · intro t lu hlu
    have h2 := hinv (t, lu) (mem_of_alookup hlu)
    simp only at h2
    omega
  · intro lockHeld name u tokenID lu r hq hlu hstep hz
    rcases (removeTokenStep_spec hstep).2.2 with ⟨⟨q0, hq0⟩, _, _⟩ | ⟨lu', hq0, hlu', hcase⟩
    · rw [hq] at hq0
      exact absurd hq0 (by simp)
    · have hlu2 : lu' = lu := by
        rw [hlu] at hlu'
        exact (Option.some_inj.mp hlu').symm
      subst hlu2
      rcases hcase with ⟨_, hl, hc⟩ | ⟨hz', _, _⟩
      · constructor
        · rw [hl]
          exact alookup_aerase_self hnr
        · rw [hc]
          exact List.mem_append_right _ (List.mem_singleton.mpr rfl)
      · exact absurd hz hz'

/-- Witness for C2 at the concrete reachable state after one batch-creating
cycle. -/
theorem claim_c2_witness :
    (∀ t lu, alookup t svcBatch.loggersUsageByTokenID = some lu → 0 ≤ lu.usage) ∧
    (∀ lockHeld name u tokenID lu r, u.eventQueue = none →
      alookup tokenID svcBatch.loggersUsageByTokenID = some lu →
      removeTokenStep lockHeld name u svcBatch tokenID = some r →
      lu.usage - 1 = 0 →
      alookup tokenID r.1.loggersUsageByTokenID = none ∧ lu.logger ∈ r.1.closed) :=
  claim_c2 svcBatch (@Reachable.step emptyService svcBatch envID [("a", cfgBatchV1)]
    [.created "a", .write .units false, .registered "a", .write .loggers false,
      .write .loggers false, .write .consumers true, .write .storages true, .write .ids true]
    Reachable.base (by decide) (by rfl))

/-! Behavior of one create step on its own destination. -/

theorem createStep_skip_same {env : Env} {s : Service} {nm : NewMaps} {evs : List Event}
    {p : String × DestinationConfig} {u : Unit}
    (hu : alookup p.1 s.unitsByName = some u)
    (hh : u.hash = getHash p.1 (resolvedConfig env p.2)) :
    createStep env (s, nm, evs) p = some (s, nm, evs) := by
  simp only [createStep, removeOldUnit, hu, hh, if_true]
  simp [Option.bind]

theorem createStep_skip_abort {env : Env} {s : Service} {nm : NewMaps} {evs : List Event}
    {p : String × DestinationConfig} (hu : alookup p.1 s.unitsByName = none)
    (habort : (resolvedConfig env p.2).OnlyTokens = [] ∨
      env.createErr p.1 (resolvedConfig env p.2) = true) :
    createStep env (s, nm, evs) p = some (s, nm, evs) := by
  simp only [createStep, removeOldUnit, hu]
  by_cases he : (resolvedConfig env p.2).OnlyTokens = []
  · simp [Option.bind, he]
  · rcases habort with ha | ha
    · exact absurd ha he
    · simp [Option.bind, he, ha]

theorem tokensLoop_evs_mono {cfg : DestinationConfig} {name : String} {q : Option Nat}
    {st : Nat} {ts : List String} {acc : Service × NewMaps × List Event} {e : Event}
    (h : e ∈ acc.2.2) : e ∈ (tokensLoop cfg name q st acc ts).2.2 := by
  induction ts generalizing acc with
  | nil => exact h
  | cons t rest ih =>
    rw [tokensLoop]
    refine ih ?_
    rcases acc with ⟨s, nm, evs⟩
    have hevs : e ∈ evs := h
    by_cases hstaged : cfg.Staged = true
    · rw [consumerTokenStep_staged hstaged]
      exact hevs
    · have hs2 := bool_eq_false_of_ne_true hstaged
      by_cases hmode : cfg.Mode = StreamMode
      · rw [consumerTokenStep_stream hs2 hmode]
        exact hevs
      · rcases hlu : alookup t s.loggersUsageByTokenID with _ | lu
        · rw [consumerTokenStep_batch_none hs2 hmode hlu]
          exact List.mem_append_left _ hevs
        · rw [consumerTokenStep_batch_some hs2 hmode hlu]
          exact List.mem_append_left _ hevs

theorem createStep_creates {env : Env} {s : Service} {nm : NewMaps} {evs : List Event}
    {p : String × DestinationConfig} (hu : alookup p.1 s.unitsByName = none)
    (ht : (resolvedConfig env p.2).OnlyTokens ≠ [])
    (herr : env.createErr p.1 (resolvedConfig env p.2) = false) :
    ∃ r, createStep env (s, nm, evs) p = some r ∧
      alookup p.1 r.1.unitsByName =
        some ⟨(if (resolvedConfig env p.2).Mode = StreamMode then some (s.nextHandle + 1)
               else none), s.nextHandle, (resolvedConfig env p.2).OnlyTokens,
              getHash p.1 (resolvedConfig env p.2)⟩ ∧
      Event.registered p.1 ∈ r.2.2 ∧ Event.created p.1 ∈ r.2.2 := by
  refine ⟨registerNew (resolvedConfig env p.2) p.1 s nm (evs ++ []), ?_, ?_, ?_, ?_⟩
  · simp only [createStep, removeOldUnit, hu]
    simp [Option.bind, ht, herr]
  · rw [registerNew_units]
    exact alookup_aset_self _ _ _
  · rw [registerNew]
    refine tokensLoop_evs_mono ?_
    show Event.registered p.1 ∈
      evs ++ [] ++ [.created p.1, .write .units false, .registered p.1]
    simp
  · rw [registerNew]
    refine tokensLoop_evs_mono ?_
    show Event.created p.1 ∈
      evs ++ [] ++ [.created p.1, .write .units false, .registered p.1]
    simp

theorem createStep_lookup_other {env : Env} {acc r : Service × NewMaps × List Event}
    {p : String × DestinationConfig} {n : String} (h : createStep env acc p = some r)
    (hne : p.1 ≠ n) : alookup n r.1.unitsByName = alookup n acc.1.unitsByName := by
  rcases acc with ⟨s, nm, evs⟩
  simp only [createStep] at h
  rcases Option.bind_eq_some.mp h with ⟨q, hq, h2⟩
  have hmid : alookup n q.1.unitsByName = alookup n s.unitsByName := by
    rcases removeOldUnit_spec hq with ⟨_, hqs, _, _⟩ | ⟨_, hqs, _, _⟩ | ⟨_, u, _, _, hrem⟩
    · rw [hqs]
    · rw [hqs]
    · have := (remove_spec hrem).1
      show alookup n (q.1, q.2.1).1.unitsByName = alookup n s.unitsByName
      rw [this]
      exact alookup_aerase_ne _ hne
  split at h2
  · cases h2
    exact hmid
  · split at h2
    · cases h2
      exact hmid
    · split at h2
      · cases h2
        exact hmid
      · cases h2
        show alookup n (registerNew (resolvedConfig env p.2) p.1 q.1 nm (evs ++ q.2.1)).1.unitsByName =
          alookup n s.unitsByName
        rw [registerNew_units, alookup_aset_ne _ _ hne]
        exact hmid

theorem createStep_char {env : Env} {acc r : Service × NewMaps × List Event}
    {p : String × DestinationConfig} (hnod : (keysOf acc.1.unitsByName).Nodup)
    (h : createStep env acc p = some r) :
    (∃ u, alookup p.1 r.1.unitsByName = some u ∧
      u.hash = getHash p.1 (resolvedConfig env p.2)) ∨
    (alookup p.1 r.1.unitsByName = none ∧
      ((resolvedConfig env p.2).OnlyTokens = [] ∨
        env.createErr p.1 (resolvedConfig env p.2) = true)) := by
  rcases acc with ⟨s, nm, evs⟩
  have hnods : (keysOf s.unitsByName).Nodup := hnod
  simp only [createStep] at h
  rcases Option.bind_eq_some.mp h with ⟨q, hq, h2⟩
  rcases removeOldUnit_spec hq with ⟨hskip, hqs, _, u, hu, hh⟩ | hrest
  · rw [hskip] at h2
    simp only [if_true] at h2
    cases h2
    refine Or.inl ⟨u, ?_, hh⟩
    show alookup p.1 q.1.unitsByName = some u
    rw [hqs]
    exact hu
  · have hfalse : q.2.2 = false := by
      rcases hrest with ⟨h1, _⟩ | ⟨h1, _⟩ <;> exact h1
    have hnone : alookup p.1 q.1.unitsByName = none := by
      rcases hrest with ⟨_, hqs, _, hu⟩ | ⟨_, u, hu, hne2, hrem⟩
      · rw [hqs]
        exact hu
      · have h5 := (remove_spec hrem).1
        rw [show q.1.unitsByName = aerase p.1 s.unitsByName from h5]
        exact alookup_aerase_self hnods
    rw [hfalse] at h2
    simp only [Bool.false_eq_true, if_false] at h2
    split at h2
    · rename_i hempty
      cases h2
      exact Or.inr ⟨hnone, Or.inl hempty⟩
    · split at h2
      · rename_i herr
        cases h2
        exact Or.inr ⟨hnone, Or.inr herr⟩
      · cases h2
        refine Or.inl ⟨⟨(if (resolvedConfig env p.2).Mode = StreamMode then
            some (q.1.nextHandle + 1) else none), q.1.nextHandle,
            (resolvedConfig env p.2).OnlyTokens, getHash p.1 (resolvedConfig env p.2)⟩,
          ?_, rfl⟩
        rw [registerNew_units]
        exact alookup_aset_self _ _ _

/-! The create pass over whole snapshots. -/

theorem createAux_append (env : Env) (l1 l2 : List (String × DestinationConfig))
    (acc : Service × NewMaps × List Event) :
    createAux env (l1 ++ l2) acc =
      (createAux env l1 acc).bind fun mid => createAux env l2 mid := by
  induction l1 generalizing acc with
  | nil => simp [createAux]
  | cons p rest ih =>
    rw [List.cons_append, createAux_cons, createAux_cons]
    rcases hs : createStep env acc p with _ | a1
    · simp
    · simp [ih]

theorem createAux_stability {env : Env} {dc : List (String × DestinationConfig)}
    {acc r : Service × NewMaps × List Event} {n : String}
    (h : createAux env dc acc = some r) (hn : n ∉ keysOf dc) :
    alookup n r.1.unitsByName = alookup n acc.1.unitsByName := by
  induction dc generalizing acc with
  | nil =>
    rw [createAux] at h
    cases h
    rfl
  | cons p rest ih =>
    rw [createAux_cons] at h
    rcases Option.bind_eq_some.mp h with ⟨a1, h1, h2⟩
    rw [keysOf, List.map_cons] at hn
    have hne : p.1 ≠ n := fun he => hn (he ▸ List.mem_cons_self _ _)
    have hrest : n ∉ keysOf rest := fun he => hn (List.mem_cons_of_mem _ he)
    rw [ih h2 hrest, createStep_lookup_other h1 hne]

theorem createAux_identity {env : Env} {dc : List (String × DestinationConfig)}
    {s : Service} {nm : NewMaps} {evs : List Event}
    (hall : ∀ p ∈ dc,
      (∃ u, alookup p.1 s.unitsByName = some u ∧
        u.hash = getHash p.1 (resolvedConfig env p.2)) ∨
      (alookup p.1 s.unitsByName = none ∧
        ((resolvedConfig env p.2).OnlyTokens = [] ∨
          env.createErr p.1 (resolvedConfig env p.2) = true))) :
    createAux env dc (s, nm, evs) = some (s, nm, evs) := by
  induction dc with
  | nil => rfl
  | cons p rest ih =>
    rw [createAux_cons]
    have hstep : createStep env (s, nm, evs) p = some (s, nm, evs) := by
      rcases hall p (List.mem_cons_self _ _) with ⟨u, hu, hh⟩ | ⟨hu, hab⟩
      · exact createStep_skip_same hu hh
      · exact createStep_skip_abort hu hab
    rw [hstep]
    simp only [Option.some_bind]
    exact ih fun p hp => hall p (List.mem_cons_of_mem _ hp)

theorem createAux_char {env : Env} {dc : List (String × DestinationConfig)}
    {acc r : Service × NewMaps × List Event} {n : String} {c : DestinationConfig}
    (hnodupdc : (dc.map Prod.fst).Nodup) (hnod : (keysOf acc.1.unitsByName).Nodup)
    (hmem : (n, c) ∈ dc) (h : createAux env dc acc = some r) :
    (∃ u, alookup n r.1.unitsByName = some u ∧
      u.hash = getHash n (resolvedConfig env c)) ∨
    (alookup n r.1.unitsByName = none ∧
      ((resolvedConfig env c).OnlyTokens = [] ∨
        env.createErr n (resolvedConfig env c) = true)) := by
  rcases List.append_of_mem hmem with ⟨l1, l2, hdc⟩
  subst hdc
  rw [createAux_append] at h
  rcases Option.bind_eq_some.mp h with ⟨mid, hmid, h2⟩
  rw [createAux_cons] at h2
  rcases Option.bind_eq_some.mp h2 with ⟨a2, ha2, h3⟩
  have hnodmid : (keysOf mid.1.unitsByName).Nodup := (createAux_inv hmid).2.2 hnod
  have hstep := createStep_char hnodmid ha2
  have hkeys : (keysOf l1 ++ n :: keysOf l2).Nodup := by
    simpa [keysOf] using hnodupdc
  have hnl2 : n ∉ keysOf l2 :=
    (List.nodup_cons.mp (List.nodup_append.mp hkeys).2.1).1
  have hstab : alookup n r.1.unitsByName = alookup n a2.1.unitsByName :=
    createAux_stability h3 hnl2
  rw [hstab]
  exact hstep

theorem deletePass_lookup_in_dc {dc : List (String × DestinationConfig)} {s : Service}
    {r : Service × List Event} {k : String} (h : deletePass dc s = some r)
    (hk : (alookup k dc).isSome = true) :
    alookup k r.1.unitsByName = alookup k s.unitsByName := by
  unfold deletePass at h
  refine deleteAux_lookup_preserved h ?_
  intro hmem
  rcases List.mem_map.mp hmem with ⟨pr, hpr, hfst⟩
  have hpred := (List.mem_filter.mp hpr).2
  rw [hfst] at hpred
  rw [Option.isNone_iff_eq_none.mp hpred] at hk
  exact absurd hk (by simp)

theorem deletePass_lookup_not_in_dc {dc : List (String × DestinationConfig)} {s : Service}
    {r : Service × List Event} {k : String} (h : deletePass dc s = some r)
    (hn : (keysOf s.unitsByName).Nodup) (hk : alookup k dc = none) :
    alookup k r.1.unitsByName = none := by
  unfold deletePass at h
  rcases hu : alookup k s.unitsByName with _ | u
  · exact deleteAux_mono_none h hu
  · refine deleteAux_erases h hn ?_
    refine List.mem_map.mpr ⟨(k, u), ?_, rfl⟩
    refine List.mem_filter.mpr ⟨mem_of_alookup hu, ?_⟩
    show (alookup (k, u).1 dc).isNone = true
    rw [show (k, u).1 = k from rfl, hk]
    rfl

theorem deletePass_nothing {dc : List (String × DestinationConfig)} {s : Service}
    (hall : ∀ pr ∈ s.unitsByName, (alookup pr.1 dc).isSome = true) :
    deletePass dc s = some (s, []) := by
  unfold deletePass
  have hfil : s.unitsByName.filter (fun p => (alookup p.1 dc).isNone) = [] := by
    rw [List.filter_eq_nil_iff]
    intro pr hpr he0
    have h6 := hall pr hpr
    rw [Option.isNone_iff_eq_none] at he0
    rw [he0] at h6
    exact absurd h6 (by simp)
  rw [hfil, deleteAux]

/-- C4: reconciliation is idempotent. After a successful cycle over a snapshot
(whose keys are distinct, as a Go map guarantees, and starting from a service
whose unit-registry keys are distinct), running the identical cycle again
returns the very same service state — so every Unit, queue and storage handle
is the same instance and all three tokenized maps are unchanged — and the
second run's trace holds no removal, no construction and no registration,
only the three publish writes. -/
theorem claim_c4 (env : Env) (dc : List (String × DestinationConfig)) (s0 s1 : Service)
    (evs1 : List Event) (hdc : (dc.map Prod.fst).Nodup)
    (hwf : (keysOf s0.unitsByName).Nodup) (h : s0.init env dc = some (s1, evs1)) :
    s1.init env dc = some (s1, pubTrace) ∧
    (∀ n, Event.removed n ∉ pubTrace ∧ Event.registered n ∉ pubTrace ∧
      Event.created n ∉ pubTrace) := by
  refine ⟨?_, fun n => by refine ⟨?_, ?_, ?_⟩ <;> simp [pubTrace]⟩
  have hinv := init_inv h
  rw [init_eq] at h
  rcases Option.bind_eq_some.mp h with ⟨q1, hq1, h2⟩
  rcases Option.bind_eq_some.mp h2 with ⟨q2, hq2, h3⟩
  have hpair : (publish q2.1 q2.2.1, q1.2 ++ q2.2.2 ++ pubTrace) = (s1, evs1) :=
    Option.some_inj.mp h3
  have hs1eq : publish q2.1 q2.2.1 = s1 := congrArg Prod.fst hpair
  have hunits : s1.unitsByName = q2.1.unitsByName := by
    rw [← hs1eq]
    rfl
  have hnodq1 : (keysOf q1.1.unitsByName).Nodup := by
    unfold deletePass at hq1
    exact (deleteAux_spec hq1).2.2.2 hwf
  have hchar : ∀ p ∈ dc,
      (∃ u, alookup p.1 s1.unitsByName = some u ∧
        u.hash = getHash p.1 (resolvedConfig env p.2)) ∨
      (alookup p.1 s1.unitsByName = none ∧
        ((resolvedConfig env p.2).OnlyTokens = [] ∨
          env.createErr p.1 (resolvedConfig env p.2) = true)) := by
    intro p hp
    rw [hunits]
    exact createAux_char hdc hnodq1 (show (p.1, p.2) ∈ dc from hp) hq2
  have habsent : ∀ k, alookup k dc = none → alookup k s1.unitsByName = none := by
    intro k hk
    rw [hunits]
    have h1 : alookup k q1.1.unitsByName = none :=
      deletePass_lookup_not_in_dc hq1 hwf hk
    have h2 := createAux_stability hq2 (alookup_none_iff.mp hk)
    rw [h2]
    exact h1
  have hdel2 : deletePass dc s1 = some (s1, []) := by
    refine deletePass_nothing ?_
    intro pr hpr
    by_cases hc : (alookup pr.1 dc).isSome = true
    · exact hc
    · have hnone : alookup pr.1 dc = none := by
        rcases he : alookup pr.1 dc with _ | v
        · rfl
        · rw [he] at hc
          exact absurd rfl hc
      have h4 := habsent pr.1 hnone
      have h5 := alookup_isSome_of_mem_keys
        (List.mem_map.mpr ⟨pr, hpr, rfl⟩ : pr.1 ∈ keysOf s1.unitsByName)
      rw [h4] at h5
      exact absurd h5 (by simp)
  have hcre2 : createAux env dc (s1, emptyNewMaps, []) = some (s1, emptyNewMaps, []) :=
    createAux_identity hchar
  rw [init_eq, hdel2]
  simp only [Option.some_bind]
  rw [hcre2]
  simp only [Option.some_bind]
  rfl

/-- Witness for C4 at a concrete snapshot: a batch and a stream destination
created from the empty service. -/
theorem claim_c4_witness :
    svcBatch.init envID [("a", cfgBatchV1)] = some (svcBatch, pubTrace) ∧
    (∀ n, Event.removed n ∉ pubTrace ∧ Event.registered n ∉ pubTrace ∧
      Event.created n ∉ pubTrace) :=
  claim_c4 envID [("a", cfgBatchV1)] emptyService svcBatch
    [.created "a", .write .units false, .registered "a", .write .loggers false,
      .write .loggers false, .write .consumers true, .write .storages true, .write .ids true]
    (by decide) (by decide) (by rfl)

/-! Shapes of the event traces of the passes. -/

theorem removeConsumerStage_evs {lockHeld : Bool} {name : String} {u : Unit} {s : Service}
    {t : String} {r : List (String × Nat) × Service × List Event}
    (h : removeConsumerStage lockHeld name u s t = some r) :
    ∀ e ∈ r.2.2, ∃ f b, e = Event.write f b := by
  simp only [removeConsumerStage] at h
  split at h
  · cases h
    intro e he
    simp only [List.mem_cons, List.not_mem_nil, or_false] at he
    exact ⟨_, _, he⟩
  · split at h
    · exact absurd h (by simp)
    · split at h
      · cases h
        intro e he
        simp only [List.mem_cons, List.not_mem_nil, or_false] at he
        rcases he with rfl | rfl
        · exact ⟨_, _, rfl⟩
        · exact ⟨_, _, rfl⟩
      · cases h
        intro e he
        simp only [List.mem_cons, List.not_mem_nil, or_false] at he
        exact ⟨_, _, he⟩

theorem writeBackConsumers_evs (lockHeld : Bool) (t : String)
    (q : List (String × Nat) × Service × List Event) :
    ∀ e ∈ (writeBackConsumers lockHeld t q).2,
      e ∈ q.2.2 ∨ ∃ f b, e = Event.write f b := by
  rcases q with ⟨oc, s1, evs⟩
  rw [writeBackConsumers]
  split
  · intro e he
    rcases List.mem_append.mp he with h1 | h1
    · exact Or.inl h1
    · simp only [List.mem_cons, List.not_mem_nil, or_false] at h1
      exact Or.inr ⟨_, _, h1⟩
  · intro e he
    exact Or.inl he

theorem removeStorageEntry_evs (lockHeld : Bool) (name t : String) (q : Service × List Event) :
    ∀ e ∈ (removeStorageEntry lockHeld name t q).2,
      e ∈ q.2 ∨ ∃ f b, e = Event.write f b := by
  rw [removeStorageEntry]
  rcases alookup t q.1.storagesByTokenID with _ | oldStorages
  · intro e he
    exact Or.inl he
  · intro e he
    rcases List.mem_append.mp he with h1 | h1
    · exact Or.inl h1
    · simp only [List.mem_cons, List.not_mem_nil, or_false] at h1
      exact Or.inr ⟨_, _, h1⟩

theorem removeIdEntry_evs (lockHeld : Bool) (name t : String) (q : Service × List Event) :
    ∀ e ∈ (removeIdEntry lockHeld name t q).2,
      e ∈ q.2 ∨ ∃ f b, e = Event.write f b := by
  rw [removeIdEntry]
  rcases alookup t q.1.destinationsIDByTokenID with _ | ids0
  · intro e he
    exact Or.inl he
  · intro e he
    rcases List.mem_append.mp he with h1 | h1
    · exact Or.inl h1
    · simp only [List.mem_cons, List.not_mem_nil, or_false] at h1
      exact Or.inr ⟨_, _, h1⟩

theorem removeTokenStep_evs {lockHeld : Bool} {name : String} {u : Unit} {s : Service}
    {t : String} {r : Service × List Event} (h : removeTokenStep lockHeld name u s t = some r) :
    ∀ e ∈ r.2, ∃ f b, e = Event.write f b := by
  rw [removeTokenStep] at h
  rcases Option.map_eq_some'.mp h with ⟨q, hq, hr⟩
  intro e he
  rw [← hr] at he
  rcases removeIdEntry_evs lockHeld name t _ e he with h1 | h1
  · rcases removeStorageEntry_evs lockHeld name t _ e h1 with h2 | h2
    · rcases writeBackConsumers_evs lockHeld t _ e h2 with h3 | h3
      · exact removeConsumerStage_evs hq e h3
      · exact h3
    · exact h2
  · exact h1

theorem removeAux_evs {lockHeld : Bool} {name : String} {u : Unit} {ts : List String}
    {s : Service} {r : Service × List Event} (h : removeAux lockHeld name u ts s = some r) :
    ∀ e ∈ r.2, ∃ f b, e = Event.write f b := by
  induction ts generalizing s r with
  | nil =>
    rw [removeAux] at h
    cases h
    intro e he
    exact absurd he (List.not_mem_nil e)
  | cons t rest ih =>
    rw [removeAux_cons] at h
    rcases Option.bind_eq_some.mp h with ⟨q1, hq1, h2⟩
    rcases Option.bind_eq_some.mp h2 with ⟨q2, hq2, h3⟩
    cases h3
    intro e he
    rcases List.mem_append.mp he with h1 | h1
    · exact removeTokenStep_evs hq1 e h1
    · exact ih hq2 e h1

theorem remove_evs {lockHeld : Bool} {name : String} {u : Unit} {s : Service}
    {r : Service × List Event} (h : s.remove lockHeld name u = some r) :
    ∀ e ∈ r.2, (∃ f b, e = Event.write f b) ∨ e = Event.removed name := by
  rw [remove_eq] at h
  rcases Option.map_eq_some'.mp h with ⟨q, hq, hr⟩
  intro e he
  rw [← hr] at he
  rcases List.mem_append.mp he with h1 | h1
  · exact Or.inl (removeAux_evs hq e h1)
  · simp only [List.mem_cons, List.not_mem_nil, or_false] at h1
    rcases h1 with rfl | rfl
    · exact Or.inl ⟨_, _, rfl⟩
    · exact Or.inr rfl

theorem deleteAux_evs {l : List (String × Unit)} {s : Service} {r : Service × List Event}
    (h : deleteAux l s = some r) :
    ∀ e ∈ r.2, (∃ f b, e = Event.write f b) ∨ ∃ pr ∈ l, e = Event.removed pr.1 := by
  induction l generalizing s r with
  | nil =>
    rw [deleteAux] at h
    cases h
    intro e he
    exact absurd he (List.not_mem_nil e)
  | cons p rest ih =>
    rw [deleteAux_cons] at h
    rcases Option.bind_eq_some.mp h with ⟨q1, hq1, h2⟩
    rcases Option.bind_eq_some.mp h2 with ⟨q2, hq2, h3⟩
    cases h3
    intro e he
    rcases List.mem_append.mp he with h1 | h1
    · rcases remove_evs hq1 e h1 with h2 | h2
      · exact Or.inl h2
      · exact Or.inr ⟨p, List.mem_cons_self _ _, h2⟩
    · rcases ih hq2 e h1 with h2 | ⟨pr, hpr, h2⟩
      · exact Or.inl h2
      · exact Or.inr ⟨pr, List.mem_cons_of_mem _ hpr, h2⟩

theorem consumerTokenStep_evs {cfg : DestinationConfig} {name : String} {q : Option Nat}
    {st : Nat} {t : String} (acc : Service × NewMaps × List Event) :
    ∀ e ∈ (consumerTokenStep cfg name q st acc t).2.2,
      e ∈ acc.2.2 ∨ ∃ f b, e = Event.write f b := by
  rcases acc with ⟨s, nm, evs⟩
  by_cases hstaged : cfg.Staged = true
  · rw [consumerTokenStep_staged hstaged]
    exact fun e he => Or.inl he
  · have hs2 := bool_eq_false_of_ne_true hstaged
    by_cases hmode : cfg.Mode = StreamMode
    · rw [consumerTokenStep_stream hs2 hmode]
      exact fun e he => Or.inl he
    · rcases hlu : alookup t s.loggersUsageByTokenID with _ | lu
      · rw [consumerTokenStep_batch_none hs2 hmode hlu]
        intro e he
        rcases List.mem_append.mp he with h1 | h1
        · exact Or.inl h1
        · simp only [List.mem_cons, List.not_mem_nil, or_false] at h1
          rcases h1 with rfl | rfl
          · exact Or.inr ⟨_, _, rfl⟩
          · exact Or.inr ⟨_, _, rfl⟩
      · rw [consumerTokenStep_batch_some hs2 hmode hlu]
        intro e he
        rcases List.mem_append.mp he with h1 | h1
        · exact Or.inl h1
        · simp only [List.mem_cons, List.not_mem_nil, or_false] at h1
          exact Or.inr ⟨_, _, h1⟩

theorem tokensLoop_evs {cfg : DestinationConfig} {name : String} {q : Option Nat}
    {st : Nat} {ts : List String} (acc : Service × NewMaps × List Event) :
    ∀ e ∈ (tokensLoop cfg name q st acc ts).2.2,
      e ∈ acc.2.2 ∨ ∃ f b, e = Event.write f b := by
  induction ts generalizing acc with
  | nil => exact fun e he => Or.inl he
  | cons t rest ih =>
    rw [tokensLoop]
    intro e he
    rcases ih (consumerTokenStep cfg name q st acc t) e he with h1 | h1
    · exact consumerTokenStep_evs acc e h1
    · exact Or.inr h1

theorem registerNew_evs (cfg : DestinationConfig) (name : String) (s1 : Service)
    (nm : NewMaps) (evs : List Event) :
    ∀ e ∈ (registerNew cfg name s1 nm evs).2.2,
      e ∈ evs ∨ (∃ f b, e = Event.write f b) ∨
      e = Event.created name ∨ e = Event.registered name := by
  intro e he
  rw [registerNew] at he
  rcases tokensLoop_evs _ e he with h1 | h1
  · rcases List.mem_append.mp h1 with h2 | h2
    · exact Or.inl h2
    · simp only [List.mem_cons, List.not_mem_nil, or_false] at h2
      rcases h2 with rfl | rfl | rfl
      · exact Or.inr (Or.inr (Or.inl rfl))
      · exact Or.inr (Or.inl ⟨_, _, rfl⟩)
      · exact Or.inr (Or.inr (Or.inr rfl))
  · exact Or.inr (Or.inl h1)

theorem createStep_evs {env : Env} {acc r : Service × NewMaps × List Event}
    {p : String × DestinationConfig} (h : createStep env acc p = some r) :
    ∀ e ∈ r.2.2, e ∈ acc.2.2 ∨ (∃ f b, e = Event.write f b) ∨
      e = Event.created p.1 ∨ e = Event.registered p.1 ∨ e = Event.removed p.1 := by
  rcases acc with ⟨s, nm, evs⟩
  simp only [createStep] at h
  rcases Option.bind_eq_some.mp h with ⟨q, hq, h2⟩
  have hq2evs : ∀ e ∈ q.2.1, (∃ f b, e = Event.write f b) ∨ e = Event.removed p.1 := by
    rcases removeOldUnit_spec hq with ⟨_, _, hq21, _⟩ | ⟨_, _, hq21, _⟩ | ⟨_, u, _, _, hrem⟩
    · rw [hq21]
      intro e he
      exact absurd he (List.not_mem_nil e)
    · rw [hq21]
      intro e he
      exact absurd he (List.not_mem_nil e)
    · exact remove_evs hrem
  have happ : ∀ e ∈ evs ++ q.2.1, e ∈ evs ∨ (∃ f b, e = Event.write f b) ∨
      e = Event.removed p.1 := by
    intro e he
    rcases List.mem_append.mp he with h1 | h1
    · exact Or.inl h1
    · rcases hq2evs e h1 with h2 | h2
      · exact Or.inr (Or.inl h2)
      · exact Or.inr (Or.inr h2)
  split at h2
  · cases h2
    intro e he
    rcases happ e he with h1 | h1 | h1
    · exact Or.inl h1
    · exact Or.inr (Or.inl h1)
    · exact Or.inr (Or.inr (Or.inr (Or.inr h1)))
  · split at h2
    · cases h2
      intro e he
      rcases happ e he with h1 | h1 | h1
      · exact Or.inl h1
      · exact Or.inr (Or.inl h1)
      · exact Or.inr (Or.inr (Or.inr (Or.inr h1)))
    · split at h2
      · cases h2
        intro e he
        rcases happ e he with h1 | h1 | h1
        · exact Or.inl h1
        · exact Or.inr (Or.inl h1)
        · exact Or.inr (Or.inr (Or.inr (Or.inr h1)))
      · cases h2
        intro e he
        rcases registerNew_evs _ _ _ _ _ e he with h1 | h1 | h1 | h1
        · rcases happ e h1 with h2 | h2 | h2
          · exact Or.inl h2
          · exact Or.inr (Or.inl h2)
          · exact Or.inr (Or.inr (Or.inr (Or.inr h2)))
        · exact Or.inr (Or.inl h1)
        · exact Or.inr (Or.inr (Or.inl h1))
        · exact Or.inr (Or.inr (Or.inr (Or.inl h1)))

theorem createStep_evs_mono {env : Env} {acc r : Service × NewMaps × List Event}
    {p : String × DestinationConfig} (h : createStep env acc p = some r) :
    ∀ e ∈ acc.2.2, e ∈ r.2.2 := by
  rcases acc with ⟨s, nm, evs⟩
  simp only [createStep] at h
  rcases Option.bind_eq_some.mp h with ⟨q, hq, h2⟩
  intro e he
  have hin : e ∈ evs ++ q.2.1 := List.mem_append_left _ he
  split at h2
  · cases h2
    exact hin
  · split at h2
    · cases h2
      exact hin
    · split at h2
      · cases h2
        exact hin
      · cases h2
        rw [registerNew]
        refine tokensLoop_evs_mono ?_
        exact List.mem_append_left _ hin

theorem createAux_evs {env : Env} {dc : List (String × DestinationConfig)}
    {acc r : Service × NewMaps × List Event} (h : createAux env dc acc = some r) :
    ∀ e ∈ r.2.2, e ∈ acc.2.2 ∨ (∃ f b, e = Event.write f b) ∨
      ∃ pr ∈ dc, e = Event.created pr.1 ∨ e = Event.registered pr.1 ∨
        e = Event.removed pr.1 := by
  induction dc generalizing acc with
  | nil =>
    rw [createAux] at h
    cases h
    exact fun e he => Or.inl he
  | cons p rest ih =>
    rw [createAux_cons] at h
    rcases Option.bind_eq_some.mp h with ⟨a1, h1, h2⟩
    intro e he
    rcases ih h2 e he with hh | hh | ⟨pr, hpr, hh⟩
    · rcases createStep_evs h1 e hh with g | g | g | g | g
      · exact Or.inl g
      · exact Or.inr (Or.inl g)
      · exact Or.inr (Or.inr ⟨p, List.mem_cons_self _ _, Or.inl g⟩)
      · exact Or.inr (Or.inr ⟨p, List.mem_cons_self _ _, Or.inr (Or.inl g)⟩)
      · exact Or.inr (Or.inr ⟨p, List.mem_cons_self _ _, Or.inr (Or.inr g)⟩)
    · exact Or.inr (Or.inl hh)
    · exact Or.inr (Or.inr ⟨pr, List.mem_cons_of_mem _ hpr, hh⟩)

theorem createAux_evs_mono {env : Env} {dc : List (String × DestinationConfig)}
    {acc r : Service × NewMaps × List Event} (h : createAux env dc acc = some r) :
    ∀ e ∈ acc.2.2, e ∈ r.2.2 := by
  induction dc generalizing acc with
  | nil =>
    rw [createAux] at h
    cases h
    exact fun e he => he
  | cons p rest ih =>
    rw [createAux_cons] at h
    rcases Option.bind_eq_some.mp h with ⟨a1, h1, h2⟩
    exact fun e he => ih h2 e (createStep_evs_mono h1 e he)

/-- C8: a destination whose token resolution is empty in a cycle gets no Unit
in that cycle — nothing is constructed and nothing is registered for it — and
a later completed cycle in which its tokens resolve non-empty (and the factory
succeeds) creates and registers it. -/
theorem claim_c8 (env1 env2 : Env) (dc dc2 : List (String × DestinationConfig))
    (s0 s1 s2 : Service) (evs1 evs2 : List Event) (n : String) (cfg : DestinationConfig)
    (hdc : (dc.map Prod.fst).Nodup) (hdc2 : (dc2.map Prod.fst).Nodup)
    (hmem : (n, cfg) ∈ dc) (hmem2 : (n, cfg) ∈ dc2)
    (h0 : alookup n s0.unitsByName = none)
    (hres1 : (resolvedConfig env1 cfg).OnlyTokens = [])
    (h1 : s0.init env1 dc = some (s1, evs1))
    (hres2 : (resolvedConfig env2 cfg).OnlyTokens ≠ [])
    (herr2 : env2.createErr n (resolvedConfig env2 cfg) = false)
    (h2 : s1.init env2 dc2 = some (s2, evs2)) :
    alookup n s1.unitsByName = none ∧
    Event.created n ∉ evs1 ∧ Event.registered n ∉ evs1 ∧
    (∃ u, alookup n s2.unitsByName = some u ∧
      u.hash = getHash n (resolvedConfig env2 cfg)) ∧
    Event.registered n ∈ evs2 ∧ Event.created n ∈ evs2 := by
  rw [init_eq] at h1
  rcases Option.bind_eq_some.mp h1 with ⟨q1, hq1, h1b⟩
  rcases Option.bind_eq_some.mp h1b with ⟨q2, hq2, h1c⟩
  have hpair1 := Option.some_inj.mp h1c
  have hs1eq : publish q2.1 q2.2.1 = s1 := congrArg Prod.fst hpair1
  have hs1units : s1.unitsByName = q2.1.unitsByName := by
    rw [← hs1eq]
    rfl
  have hevs1 : q1.2 ++ q2.2.2 ++ pubTrace = evs1 := congrArg Prod.snd hpair1
  have hq1look : alookup n q1.1.unitsByName = none := by
    rw [deletePass_lookup_in_dc hq1
      (alookup_isSome_of_mem_keys (List.mem_map.mpr ⟨(n, cfg), hmem, rfl⟩))]
    exact h0
  rcases List.append_of_mem hmem with ⟨l1, l2, hdcsplit⟩
  have hkeys1 : (keysOf l1 ++ n :: keysOf l2).Nodup := by
    rw [hdcsplit] at hdc
    simpa [keysOf] using hdc
  have hnl1 : n ∉ keysOf l1 := fun hx =>
    (List.nodup_append.mp hkeys1).2.2 hx (List.mem_cons_self _ _)
  have hnl2 : n ∉ keysOf l2 :=
    (List.nodup_cons.mp (List.nodup_append.mp hkeys1).2.1).1
  rw [hdcsplit, createAux_append] at hq2
  rcases Option.bind_eq_some.mp hq2 with ⟨mid, hmid, hq2b⟩
  rw [createAux_cons] at hq2b
  rcases Option.bind_eq_some.mp hq2b with ⟨a2, ha2, hpost⟩
  have hmidlook : alookup n mid.1.unitsByName = none := by
    rw [createAux_stability hmid hnl1]
    exact hq1look
  have hstep_id : createStep env1 mid (n, cfg) = some mid :=
    createStep_skip_abort hmidlook (Or.inl hres1)
  have ha2eq : mid = a2 := Option.some_inj.mp (hstep_id.symm.trans ha2)
  have part1 : alookup n s1.unitsByName = none := by
    rw [hs1units, createAux_stability hpost hnl2, ← ha2eq]
    exact hmidlook
  -- no event about n in the first cycle
  have hnameev : ∀ ev : Event, ev ∈ evs1 →
      ev = Event.created n ∨ ev = Event.registered n → False := by
    intro ev hev hor
    rw [← hevs1] at hev
    rcases List.mem_append.mp hev with hev1 | hev1
    · rcases List.mem_append.mp hev1 with hev2 | hev2
      · unfold deletePass at hq1
        rcases deleteAux_evs hq1 ev hev2 with ⟨f, b, hfb⟩ | ⟨pr, _, hfb⟩
        · rcases hor with rfl | rfl
          · exact Event.noConfusion hfb
          · exact Event.noConfusion hfb
        · rcases hor with rfl | rfl
          · exact Event.noConfusion hfb
          · exact Event.noConfusion hfb
      · have hkeyhit : ∀ (l : List (String × DestinationConfig)),
            n ∉ keysOf l → (∃ pr ∈ l, ev = Event.created pr.1 ∨
              ev = Event.registered pr.1 ∨ ev = Event.removed pr.1) → False := by
          intro l hnl ⟨pr, hpr, hfb⟩
          rcases hor with rfl | rfl
          · rcases hfb with hfb | hfb | hfb
            · injection hfb with hnn
              exact hnl (hnn ▸ (List.mem_map.mpr ⟨pr, hpr, rfl⟩ : pr.1 ∈ keysOf l))
            · exact Event.noConfusion hfb
            · exact Event.noConfusion hfb
          · rcases hfb with hfb | hfb | hfb
            · exact Event.noConfusion hfb
            · injection hfb with hnn
              exact hnl (hnn ▸ (List.mem_map.mpr ⟨pr, hpr, rfl⟩ : pr.1 ∈ keysOf l))
            · exact Event.noConfusion hfb
        rcases createAux_evs hpost ev hev2 with hin | ⟨f, b, hfb⟩ | hwit
        · rw [← ha2eq] at hin
          rcases createAux_evs hmid ev hin with hin2 | ⟨f, b, hfb⟩ | hwit
          · exact absurd hin2 (List.not_mem_nil ev)
          · rcases hor with rfl | rfl
            · exact Event.noConfusion hfb
            · exact Event.noConfusion hfb
          · exact hkeyhit l1 hnl1 hwit
        · rcases hor with rfl | rfl
          · exact Event.noConfusion hfb
          · exact Event.noConfusion hfb
        · exact hkeyhit l2 hnl2 hwit
    · rcases hor with rfl | rfl
      · simp [pubTrace] at hev1
      · simp [pubTrace] at hev1
  -- cycle two
  rw [init_eq] at h2
  rcases Option.bind_eq_some.mp h2 with ⟨p1, hp1, h2b⟩
  rcases Option.bind_eq_some.mp h2b with ⟨p2, hp2, h2c⟩
  have hpair2 := Option.some_inj.mp h2c
  have hs2eq : publish p2.1 p2.2.1 = s2 := congrArg Prod.fst hpair2
  have hs2units : s2.unitsByName = p2.1.unitsByName := by
    rw [← hs2eq]
    rfl
  have hevs2 : p1.2 ++ p2.2.2 ++ pubTrace = evs2 := congrArg Prod.snd hpair2
  have hp1look : alookup n p1.1.unitsByName = none := by
    rw [deletePass_lookup_in_dc hp1
      (alookup_isSome_of_mem_keys (List.mem_map.mpr ⟨(n, cfg), hmem2, rfl⟩))]
    exact part1
  rcases List.append_of_mem hmem2 with ⟨m1, m2, hdc2split⟩
  have hkeys2 : (keysOf m1 ++ n :: keysOf m2).Nodup := by
    rw [hdc2split] at hdc2
    simpa [keysOf] using hdc2
  have hml1 : n ∉ keysOf m1 := fun hx =>
    (List.nodup_append.mp hkeys2).2.2 hx (List.mem_cons_self _ _)
  have hml2 : n ∉ keysOf m2 :=
    (List.nodup_cons.mp (List.nodup_append.mp hkeys2).2.1).1
  rw [hdc2split, createAux_append] at hp2
  rcases Option.bind_eq_some.mp hp2 with ⟨mid2, hmid2, hp2b⟩
  rw [createAux_cons] at hp2b
  rcases Option.bind_eq_some.mp hp2b with ⟨b2, hb2, hpost2⟩
  have hmid2look : alookup n mid2.1.unitsByName = none := by
    rw [createAux_stability hmid2 hml1]
    exact hp1look
  rcases @createStep_creates env2 mid2.1 mid2.2.1 mid2.2.2 (n, cfg)
    hmid2look hres2 herr2 with ⟨rc, hrc, hlook, hreg, hcre⟩
  have hb2eq : rc = b2 := Option.some_inj.mp (hrc.symm.trans hb2)
  refine ⟨part1, fun he => hnameev (Event.created n) he (Or.inl rfl),
    fun he => hnameev (Event.registered n) he (Or.inr rfl), ?_, ?_, ?_⟩
  · refine ⟨⟨(if (resolvedConfig env2 cfg).Mode = StreamMode then
        some (mid2.1.nextHandle + 1) else none), mid2.1.nextHandle,
        (resolvedConfig env2 cfg).OnlyTokens, getHash n (resolvedConfig env2 cfg)⟩,
      ?_, rfl⟩
    rw [hs2units, createAux_stability hpost2 hml2, ← hb2eq]
    exact hlook
  · have hin : Event.registered n ∈ p2.2.2 := by
      rw [hb2eq] at hreg
      exact createAux_evs_mono hpost2 _ hreg
    rw [← hevs2]
    exact List.mem_append_left _ (List.mem_append_right _ hin)
  · have hin : Event.created n ∈ p2.2.2 := by
      rw [hb2eq] at hcre
      exact createAux_evs_mono hpost2 _ hcre
    rw [← hevs2]
    exact List.mem_append_left _ (List.mem_append_right _ hin)

/-- Witness for C8: destination c resolves to no tokens under the unloaded
authorization environment and is skipped; under the loaded environment the
next cycle creates it. -/
theorem claim_c8_witness :
    alookup "c" emptyService.unitsByName = none ∧
    Event.created "c" ∉ pubTrace ∧ Event.registered "c" ∉ pubTrace ∧
    (∃ u, alookup "c" svcC8.unitsByName = some u ∧
      u.hash = getHash "c" (resolvedConfig envID cfgBatchV1)) ∧
    Event.registered "c" ∈ evsC8 ∧ Event.created "c" ∈ evsC8 :=
  claim_c8 envNone envID [("c", cfgBatchV1)] [("c", cfgBatchV1)] emptyService
    emptyService svcC8 pubTrace evsC8 "c" cfgBatchV1 (by decide) (by decide)
    (by decide) (by decide) (by decide) (by decide) (by decide) (by decide)
    (by decide) (by decide)

theorem resolvedConfig_Mode (env : Env) (c : DestinationConfig) :
    (resolvedConfig env c).Mode = c.Mode := by
  rw [resolvedConfig]
  split <;> rfl

theorem resolvedConfig_Staged (env : Env) (c : DestinationConfig) :
    (resolvedConfig env c).Staged = c.Staged := by
  rw [resolvedConfig]
  split <;> rfl

/-- C3: two non-staged batch destinations sharing one resolved token produce
exactly one shared-logger consumer entry for that token, keyed by the token
itself, with reference count two; removing one of them drops the count to one
without closing the logger; removing the other closes the logger exactly once
and deletes its registry entry. -/
theorem claim_c3 (env : Env) (t n1 n2 : String) (c1 c2 : DestinationConfig)
    (hn : n1 ≠ n2)
    (hm1 : c1.Mode ≠ StreamMode) (hm2 : c2.Mode ≠ StreamMode)
    (hs1 : c1.Staged = false) (hs2 : c2.Staged = false)
    (hr1 : (resolvedConfig env c1).OnlyTokens = [t])
    (hr2 : (resolvedConfig env c2).OnlyTokens = [t])
    (he1 : env.createErr n1 (resolvedConfig env c1) = false)
    (he2 : env.createErr n2 (resolvedConfig env c2) = false) :
    ∃ s1 e1 s2 e2 s3 e3,
      emptyService.init env [(n1, c1), (n2, c2)] = some (s1, e1) ∧
      alookup t s1.consumersByTokenID = some [(t, 1)] ∧
      alookup t s1.loggersUsageByTokenID = some ⟨1, 2⟩ ∧
      s1.init env [(n1, c1)] = some (s2, e2) ∧
      alookup t s2.loggersUsageByTokenID = some ⟨1, 1⟩ ∧
      (1 : Nat) ∉ s2.closed ∧
      s2.init env [] = some (s3, e3) ∧
      alookup t s3.loggersUsageByTokenID = none ∧
      s3.closed.count 1 = 1 := by
  refine ⟨{ unitsByName := [(n1, ⟨none, 0, [t], getHash n1 (resolvedConfig env c1)⟩),
              (n2, ⟨none, 2, [t], getHash n2 (resolvedConfig env c2)⟩)],
            loggersUsageByTokenID := [(t, ⟨1, 2⟩)],
            consumersByTokenID := [(t, [(t, 1)])],
            storagesByTokenID := [(t, [(n1, 0), (n2, 2)])],
            destinationsIDByTokenID := [(t, [n1, n2])],
            nextHandle := 3, closed := [] },
    [.created n1, .write .units false, .registered n1, .write .loggers false,
      .write .loggers false, .created n2, .write .units false, .registered n2,
      .write .loggers false, .write .consumers true, .write .storages true,
      .write .ids true],
    { unitsByName := [(n1, ⟨none, 0, [t], getHash n1 (resolvedConfig env c1)⟩)],
      loggersUsageByTokenID := [(t, ⟨1, 1⟩)],
      consumersByTokenID := [(t, [(t, 1)])],
      storagesByTokenID := [(t, [(n1, 0)])],
      destinationsIDByTokenID := [(t, [n1])],
      nextHandle := 3, closed := [2] },
    [.write .loggers true, .write .storages true, .write .ids true,
      .write .units true, .removed n2, .write .consumers true, .write .storages true,
      .write .ids true],
    { unitsByName := [], loggersUsageByTokenID := [], consumersByTokenID := [],
      storagesByTokenID := [], destinationsIDByTokenID := [],
      nextHandle := 3, closed := [2, 1, 0] },
    [.write .consumers true, .write .loggers true, .write .consumers true,
      .write .storages true, .write .ids true, .write .units true, .removed n1,
      .write .consumers true, .write .storages true, .write .ids true],
    ?_, ?_, ?_, ?_, ?_, ?_, ?_, ?_, ?_⟩
  · simp [Service.init, deletePass, deleteAux, createAux, createStep, removeOldUnit,
      registerNew, tokensLoop, consumerTokenStep, getOrCreateLogger, publish,
      tokAddAll, idAddAll, tokAdd, idAdd, insertName, alookup, aset, aerase,
      emptyService, emptyNewMaps, resolvedConfig_Mode, resolvedConfig_Staged,
      hm1, hm2, hs1, hs2, hr1, hr2, he1, he2, hn, Ne.symm hn]
  · simp [alookup]
  · simp [alookup]
  · simp [Service.init, deletePass, deleteAux, createAux, createStep, removeOldUnit,
      Service.remove, removeAux, removeTokenStep, removeConsumerStage,
      afterConsumerStage, writeBackConsumers, removeStorageEntry, removeIdEntry,
      Unit.closeIDs, registerNew, tokensLoop, consumerTokenStep, getOrCreateLogger,
      publish, tokAddAll, idAddAll, tokAdd, idAdd, insertName, alookup, aset, aerase,
      emptyNewMaps, resolvedConfig_Mode, resolvedConfig_Staged,
      hm1, hm2, hs1, hs2, hr1, hr2, he1, he2, hn, Ne.symm hn]
  · simp [alookup]
  · simp
  · simp [Service.init, deletePass, deleteAux, createAux, createStep, removeOldUnit,
      Service.remove, removeAux, removeTokenStep, removeConsumerStage,
      afterConsumerStage, writeBackConsumers, removeStorageEntry, removeIdEntry,
      Unit.closeIDs, registerNew, tokensLoop, consumerTokenStep, getOrCreateLogger,
      publish, tokAddAll, idAddAll, tokAdd, idAdd, insertName, alookup, aset, aerase,
      emptyNewMaps, resolvedConfig_Mode, resolvedConfig_Staged,
      hm1, hm2, hs1, hs2, hr1, hr2, he1, he2, hn, Ne.symm hn]
  · simp [alookup]
  · decide

theorem claim_c3_witness :
    ∃ s1 e1 s2 e2 s3 e3,
      emptyService.init envID [("a", cfgBatchV1), ("b", cfgBatchV2)] = some (s1, e1) ∧
      alookup "t1" s1.consumersByTokenID = some [("t1", 1)] ∧
      alookup "t1" s1.loggersUsageByTokenID = some ⟨1, 2⟩ ∧
      s1.init envID [("a", cfgBatchV1)] = some (s2, e2) ∧
      alookup "t1" s2.loggersUsageByTokenID = some ⟨1, 1⟩ ∧
      (1 : Nat) ∉ s2.closed ∧
      s2.init envID [] = some (s3, e3) ∧
      alookup "t1" s3.loggersUsageByTokenID = none ∧
      s3.closed.count 1 = 1 :=
  claim_c3 envID "t1" "a" "b" cfgBatchV1 cfgBatchV2 (by decide) (by decide) (by decide)
    (by decide) (by decide) (by decide) (by decide) (by decide) (by decide)

/-! Helper lemmas for the recreation-on-resolution-change theorem: the
registration loop of a fresh non-staged batch destination leaves a usage-one
registry entry for each of its (distinct) tokens, and the removal loop
completes whenever the unit carries a queue or every token has such an
entry. -/

theorem consumerTokenStep_registry_other {cfg : DestinationConfig} {name : String}
    {q : Option Nat} {st : Nat} (acc : Service × NewMaps × List Event) {t t' : String}
    (hne : t' ≠ t) :
    alookup t (consumerTokenStep cfg name q st acc t').1.loggersUsageByTokenID =
      alookup t acc.1.loggersUsageByTokenID := by
  rcases acc with ⟨s, nm, evs⟩
  by_cases hstaged : cfg.Staged = true
  · rw [consumerTokenStep_staged hstaged]
  · have hs2 := bool_eq_false_of_ne_true hstaged
    by_cases hmode : cfg.Mode = StreamMode
    · rw [consumerTokenStep_stream hs2 hmode]
    · rcases hlu : alookup t' s.loggersUsageByTokenID with _ | lu
      · rw [consumerTokenStep_batch_none hs2 hmode hlu]
        exact alookup_aset_ne _ _ hne
      · rw [consumerTokenStep_batch_some hs2 hmode hlu]
        exact alookup_aset_ne _ _ hne

theorem tokensLoop_registry_other {cfg : DestinationConfig} {name : String}
    {q : Option Nat} {st : Nat} {ts : List String} {t : String}
    (acc : Service × NewMaps × List Event) (ht : t ∉ ts) :
    alookup t (tokensLoop cfg name q st acc ts).1.loggersUsageByTokenID =
      alookup t acc.1.loggersUsageByTokenID := by
  induction ts generalizing acc with
  | nil => rfl
  | cons t0 rest ih =>
    rw [tokensLoop]
    have h1 : t ∉ rest := fun hm => ht (List.mem_cons_of_mem _ hm)
    have h2 : t0 ≠ t := fun he => ht (by rw [← he]; exact List.mem_cons_self _ _)
    rw [ih _ h1, consumerTokenStep_registry_other _ h2]

theorem tokensLoop_fresh_registry {cfg : DestinationConfig} {name : String} {q : Option Nat}
    {st : Nat} (hstaged : cfg.Staged = false) (hmode : ¬ cfg.Mode = StreamMode) :
    ∀ (ts : List String) (s : Service) (nm : NewMaps) (evs : List Event), ts.Nodup →
    (∀ t ∈ ts, alookup t s.loggersUsageByTokenID = none) →
    ∀ t ∈ ts, ∃ L, alookup t
      (tokensLoop cfg name q st (s, nm, evs) ts).1.loggersUsageByTokenID = some ⟨L, 1⟩ := by
  intro ts
  induction ts with
  | nil =>
    intro s nm evs _ _ t ht
    exact absurd ht (List.not_mem_nil t)
  | cons t0 rest ih =>
    intro s nm evs hnd hnone t ht
    rw [tokensLoop, consumerTokenStep_batch_none hstaged hmode
      (hnone t0 (List.mem_cons_self _ _))]
    rcases List.mem_cons.mp ht with rfl | hmem
    · refine ⟨s.nextHandle, ?_⟩
      rw [tokensLoop_registry_other _ (List.nodup_cons.mp hnd).1]
      exact alookup_aset_self _ _ _
    · refine ih _ _ _ (List.nodup_cons.mp hnd).2 ?_ t hmem
      intro t' ht'
      have hne : t0 ≠ t' := fun he =>
        (List.nodup_cons.mp hnd).1 (by rw [he]; exact ht')
      show alookup t' (aset t0 ⟨s.nextHandle, 1⟩ s.loggersUsageByTokenID) = none
      rw [alookup_aset_ne _ _ hne]
      exact hnone t' (List.mem_cons_of_mem _ ht')

theorem registerNew_fresh_registry {cfg : DestinationConfig} {name : String} {s1 : Service}
    {nm : NewMaps} {evs : List Event}
    (hstaged : cfg.Staged = false) (hmode : ¬ cfg.Mode = StreamMode)
    (hnd : cfg.OnlyTokens.Nodup)
    (hnone : ∀ t ∈ cfg.OnlyTokens, alookup t s1.loggersUsageByTokenID = none) :
    ∀ t ∈ cfg.OnlyTokens, ∃ L,
      alookup t (registerNew cfg name s1 nm evs).1.loggersUsageByTokenID = some ⟨L, 1⟩ := by
  simp only [registerNew]
  exact tokensLoop_fresh_registry hstaged hmode cfg.OnlyTokens _ _ _ hnd hnone

theorem registerNew_evs_mono (cfg : DestinationConfig) (name : String) (s1 : Service)
    (nm : NewMaps) (evs : List Event) {e : Event} (h : e ∈ evs) :
    e ∈ (registerNew cfg name s1 nm evs).2.2 := by
  rw [registerNew]
  refine tokensLoop_evs_mono ?_
  show e ∈ evs ++ [.created name, .write .units false, .registered name]
  exact List.mem_append_left _ h

theorem registerNew_evs_registered (cfg : DestinationConfig) (name : String) (s1 : Service)
    (nm : NewMaps) (evs : List Event) :
    Event.registered name ∈ (registerNew cfg name s1 nm evs).2.2 := by
  rw [registerNew]
  refine tokensLoop_evs_mono ?_
  show Event.registered name ∈ evs ++ [.created name, .write .units false, .registered name]
  simp

theorem removeAux_total_stream {name : String} {u : Unit} {q0 : Nat}
    (hq : u.eventQueue = some q0) :
    ∀ (ts : List String) (s : Service), ∃ r, removeAux true name u ts s = some r := by
  intro ts
  induction ts with
  | nil =>
    intro s
    exact ⟨(s, []), rfl⟩
  | cons t rest ih =>
    intro s
    have hrcs : removeConsumerStage true name u s t =
        some (aerase name ((alookup t s.consumersByTokenID).getD []), s,
          [.write .consumers true]) := by
      simp [removeConsumerStage, hq]
    have hstep : removeTokenStep true name u s t =
        some (afterConsumerStage true name t
          (aerase name ((alookup t s.consumersByTokenID).getD []), s,
           [.write .consumers true])) := by
      rw [removeTokenStep, hrcs]
      rfl
    obtain ⟨s1, e1, hAC⟩ : ∃ s1 e1, afterConsumerStage true name t
        (aerase name ((alookup t s.consumersByTokenID).getD []), s,
         [.write .consumers true]) = (s1, e1) := ⟨_, _, rfl⟩
    obtain ⟨r2, hr2⟩ := ih s1
    refine ⟨(r2.1, e1 ++ r2.2), ?_⟩
    rw [removeAux_cons, hstep, hAC]
    simp [hr2]

theorem removeAux_total_batch {name : String} {u : Unit}
    (hq : u.eventQueue = none) :
    ∀ (ts : List String), ts.Nodup → ∀ (s : Service),
    (∀ t ∈ ts, ∃ L, alookup t s.loggersUsageByTokenID = some ⟨L, 1⟩) →
    ∃ r, removeAux true name u ts s = some r := by
  intro ts
  induction ts with
  | nil =>
    intro _ s _
    exact ⟨(s, []), rfl⟩
  | cons t rest ih =>
    intro hnd s hreg
    obtain ⟨L, hL⟩ := hreg t (List.mem_cons_self _ _)
    have hrcs : removeConsumerStage true name u s t =
        some (aerase t ((alookup t s.consumersByTokenID).getD []),
          { s with loggersUsageByTokenID := aerase t s.loggersUsageByTokenID,
                   closed := s.closed ++ [L] },
          [.write .consumers true, .write .loggers true]) := by
      simp [removeConsumerStage, hq, hL]
    have hstep : removeTokenStep true name u s t =
        some (afterConsumerStage true name t
          (aerase t ((alookup t s.consumersByTokenID).getD []),
           { s with loggersUsageByTokenID := aerase t s.loggersUsageByTokenID,
                    closed := s.closed ++ [L] },
           [.write .consumers true, .write .loggers true])) := by
      rw [removeTokenStep, hrcs]
      rfl
    obtain ⟨s1, e1, hAC⟩ : ∃ s1 e1, afterConsumerStage true name t
        (aerase t ((alookup t s.consumersByTokenID).getD []),
         { s with loggersUsageByTokenID := aerase t s.loggersUsageByTokenID,
                  closed := s.closed ++ [L] },
         [.write .consumers true, .write .loggers true]) = (s1, e1) := ⟨_, _, rfl⟩
    have hs1reg : s1.loggersUsageByTokenID = aerase t s.loggersUsageByTokenID := by
      have h0 := (afterConsumerStage_parts true name t
        (aerase t ((alookup t s.consumersByTokenID).getD []),
         { s with loggersUsageByTokenID := aerase t s.loggersUsageByTokenID,
                  closed := s.closed ++ [L] },
         [.write .consumers true, .write .loggers true])).2.1
      rw [hAC] at h0
      exact h0
    have hrest : ∀ t' ∈ rest, ∃ L', alookup t' s1.loggersUsageByTokenID = some ⟨L', 1⟩ := by
      intro t' ht'
      obtain ⟨L', hL'⟩ := hreg t' (List.mem_cons_of_mem _ ht')
      refine ⟨L', ?_⟩
      rw [hs1reg]
      have hne : t ≠ t' := fun he =>
        (List.nodup_cons.mp hnd).1 (by rw [he]; exact ht')
      rw [alookup_aerase_ne _ hne]
      exact hL'
    obtain ⟨r2, hr2⟩ := ih (List.nodup_cons.mp hnd).2 s1 hrest
    refine ⟨(r2.1, e1 ++ r2.2), ?_⟩
    rw [removeAux_cons, hstep, hAC]
    simp [hr2]

theorem remove_total {name : String} {u : Unit} {s : Service}
    (h : ∃ r0, removeAux true name u u.tokenIDs s = some r0) :
    ∃ r, s.remove true name u = some r ∧ Event.removed name ∈ r.2 := by
  obtain ⟨r0, hr0⟩ := h
  refine ⟨({ r0.1 with
               closed := r0.1.closed ++ u.closeIDs,
               unitsByName := aerase name r0.1.unitsByName },
           r0.2 ++ [.write .units true, .removed name]), ?_, ?_⟩
  · rw [remove_eq, hr0]
    rfl
  · simp

/-- C6 (amended): the change-detection hash is computed over the name and the
resolved config, so two cycles with the same textual config but different
resolved token sets give different hashes; for any destination that is not a
staged batch destination (staged batch removal panics, the C9 defect), the
second cycle removes the old unit and registers a fresh one whose hash carries
the newly resolved token list. -/
theorem claim_c6 (env1 env2 : Env) (n : String) (cfg : DestinationConfig)
    (hchg : (resolvedConfig env1 cfg).OnlyTokens ≠ (resolvedConfig env2 cfg).OnlyTokens)
    (hnd1 : (resolvedConfig env1 cfg).OnlyTokens.Nodup)
    (h1ne : (resolvedConfig env1 cfg).OnlyTokens ≠ [])
    (h2ne : (resolvedConfig env2 cfg).OnlyTokens ≠ [])
    (hok : cfg.Staged = false ∨ cfg.Mode = StreamMode)
    (he1 : env1.createErr n (resolvedConfig env1 cfg) = false)
    (he2 : env2.createErr n (resolvedConfig env2 cfg) = false) :
    ∃ s1 e1 s2 e2,
      emptyService.init env1 [(n, cfg)] = some (s1, e1) ∧
      s1.init env2 [(n, cfg)] = some (s2, e2) ∧
      Event.removed n ∈ e2 ∧ Event.registered n ∈ e2 ∧
      ∃ u, alookup n s2.unitsByName = some u ∧
        u.hash = getHash n (resolvedConfig env2 cfg) := by
  obtain ⟨sA, nmA, evA, hRA⟩ : ∃ sA nmA evA,
      registerNew (resolvedConfig env1 cfg) n emptyService emptyNewMaps [] =
        (sA, nmA, evA) := ⟨_, _, _, rfl⟩
  have hstep1 : createStep env1 (emptyService, emptyNewMaps, []) (n, cfg) =
      some (sA, nmA, evA) := by
    have hu : alookup n emptyService.unitsByName = none := rfl
    simp only [createStep, removeOldUnit, hu]
    simp [Option.bind, h1ne, he1, hRA]
  have hcA : createAux env1 [(n, cfg)] (emptyService, emptyNewMaps, []) =
      some (sA, nmA, evA) := by
    rw [createAux_cons, hstep1]
    rfl
  have hdel1 : deletePass [(n, cfg)] emptyService = some (emptyService, []) := rfl
  have hc1 : emptyService.init env1 [(n, cfg)] =
      some (publish sA nmA, evA ++ pubTrace) := by
    simp only [init_eq, hdel1, hcA, Option.some_bind, List.nil_append]
  obtain ⟨u1, hu1units, hu1queue, hu1tokens, hu1hash⟩ : ∃ u1,
      sA.unitsByName = [(n, u1)] ∧
      u1.eventQueue = (if cfg.Mode = StreamMode then some 1 else none) ∧
      u1.tokenIDs = (resolvedConfig env1 cfg).OnlyTokens ∧
      u1.hash = getHash n (resolvedConfig env1 cfg) := by
    refine ⟨⟨(if (resolvedConfig env1 cfg).Mode = StreamMode then
        some (emptyService.nextHandle + 1) else none), emptyService.nextHandle,
        (resolvedConfig env1 cfg).OnlyTokens, getHash n (resolvedConfig env1 cfg)⟩,
      ?_, ?_, rfl, rfl⟩
    · have h0 := registerNew_units (resolvedConfig env1 cfg) n emptyService emptyNewMaps []
      rw [hRA] at h0
      exact h0
    · show (if (resolvedConfig env1 cfg).Mode = StreamMode then
        some (emptyService.nextHandle + 1) else none) =
          (if cfg.Mode = StreamMode then some 1 else none)
      rw [resolvedConfig_Mode]
      rfl
  have hregA : cfg.Staged = false → ¬ cfg.Mode = StreamMode →
      ∀ t ∈ (resolvedConfig env1 cfg).OnlyTokens,
        ∃ L, alookup t sA.loggersUsageByTokenID = some ⟨L, 1⟩ := by
    intro hstg hm
    have hstg2 : (resolvedConfig env1 cfg).Staged = false := by
      rw [resolvedConfig_Staged]
      exact hstg
    have hm2 : ¬ (resolvedConfig env1 cfg).Mode = StreamMode := by
      rw [resolvedConfig_Mode]
      exact hm
    have h0 := @registerNew_fresh_registry (resolvedConfig env1 cfg) n emptyService
      emptyNewMaps [] hstg2 hm2 hnd1 (fun t _ => rfl)
    rw [hRA] at h0
    exact h0
  have hs1units : (publish sA nmA).unitsByName = [(n, u1)] :=
    (publish_parts sA nmA).1.trans hu1units
  have hs1reg : (publish sA nmA).loggersUsageByTokenID = sA.loggersUsageByTokenID :=
    (publish_parts sA nmA).2.1
  have hdel2 : deletePass [(n, cfg)] (publish sA nmA) = some (publish sA nmA, []) := by
    apply deletePass_nothing
    intro pr hpr
    rw [hs1units] at hpr
    have hpr2 := List.mem_singleton.mp hpr
    subst hpr2
    simp [alookup]
  have hlook2 : alookup n (publish sA nmA).unitsByName = some u1 := by
    rw [hs1units]
    simp [alookup]
  have hhashne : ¬ u1.hash = getHash n (resolvedConfig env2 cfg) := by
    rw [hu1hash]
    intro he
    have he2 : resolvedConfig env1 cfg = resolvedConfig env2 cfg := congrArg Prod.snd he
    exact hchg (congrArg DestinationConfig.OnlyTokens he2)
  have hremTotal : ∃ r0, removeAux true n u1 u1.tokenIDs (publish sA nmA) = some r0 := by
    by_cases hmode : cfg.Mode = StreamMode
    · have hq : u1.eventQueue = some 1 := by
        rw [hu1queue, if_pos hmode]
      exact removeAux_total_stream hq u1.tokenIDs (publish sA nmA)
    · have hstg : cfg.Staged = false := hok.resolve_right hmode
      have hq : u1.eventQueue = none := by
        rw [hu1queue, if_neg hmode]
      have hndu : u1.tokenIDs.Nodup := by
        rw [hu1tokens]
        exact hnd1
      have hreg : ∀ t ∈ u1.tokenIDs,
          ∃ L, alookup t (publish sA nmA).loggersUsageByTokenID = some ⟨L, 1⟩ := by
        rw [hu1tokens, hs1reg]
        exact hregA hstg hmode
      exact removeAux_total_batch hq u1.tokenIDs hndu (publish sA nmA) hreg
  obtain ⟨rr, hrr, hrrmem⟩ := remove_total hremTotal
  obtain ⟨sB, nmB, evB, hRB⟩ : ∃ sB nmB evB,
      registerNew (resolvedConfig env2 cfg) n rr.1 emptyNewMaps rr.2 =
        (sB, nmB, evB) := ⟨_, _, _, rfl⟩
  have hstep2 : createStep env2 (publish sA nmA, emptyNewMaps, []) (n, cfg) =
      some (sB, nmB, evB) := by
    simp only [createStep, removeOldUnit, hlook2]
    simp [Option.bind, hhashne, hrr, h2ne, he2, hRB]
  have hcB : createAux env2 [(n, cfg)] (publish sA nmA, emptyNewMaps, []) =
      some (sB, nmB, evB) := by
    rw [createAux_cons, hstep2]
    rfl
  have hc2 : (publish sA nmA).init env2 [(n, cfg)] =
      some (publish sB nmB, evB ++ pubTrace) := by
    simp only [init_eq, hdel2, hcB, Option.some_bind, List.nil_append]
  have hremB : Event.removed n ∈ evB := by
    have h0 := registerNew_evs_mono (resolvedConfig env2 cfg) n rr.1 emptyNewMaps rr.2 hrrmem
    rw [hRB] at h0
    exact h0
  have hregB : Event.registered n ∈ evB := by
    have h0 := registerNew_evs_registered (resolvedConfig env2 cfg) n rr.1 emptyNewMaps rr.2
    rw [hRB] at h0
    exact h0
  refine ⟨publish sA nmA, evA ++ pubTrace, publish sB nmB, evB ++ pubTrace,
    hc1, hc2, List.mem_append_left _ hremB, List.mem_append_left _ hregB, ?_⟩
  refine ⟨⟨(if (resolvedConfig env2 cfg).Mode = StreamMode then
      some (rr.1.nextHandle + 1) else none), rr.1.nextHandle,
      (resolvedConfig env2 cfg).OnlyTokens, getHash n (resolvedConfig env2 cfg)⟩, ?_, rfl⟩
  rw [(publish_parts sB nmB).1]
  have h0 := registerNew_units (resolvedConfig env2 cfg) n rr.1 emptyNewMaps rr.2
  rw [hRB] at h0
  have h1 : sB.unitsByName = aset n ⟨(if (resolvedConfig env2 cfg).Mode = StreamMode then
      some (rr.1.nextHandle + 1) else none), rr.1.nextHandle,
      (resolvedConfig env2 cfg).OnlyTokens, getHash n (resolvedConfig env2 cfg)⟩
      rr.1.unitsByName := h0
  rw [h1]
  exact alookup_aset_self _ _ _

theorem claim_c6_witness :
    ∃ s1 e1 s2 e2,
      emptyService.init envID [("a", cfgBatchV1)] = some (s1, e1) ∧
      s1.init envTwo [("a", cfgBatchV1)] = some (s2, e2) ∧
      Event.removed "a" ∈ e2 ∧ Event.registered "a" ∈ e2 ∧
      ∃ u, alookup "a" s2.unitsByName = some u ∧
        u.hash = getHash "a" (resolvedConfig envTwo cfgBatchV1) :=
  claim_c6 envID envTwo "a" cfgBatchV1 (by decide) (by decide) (by decide) (by decide)
    (Or.inl (by decide)) (by decide) (by decide)

end Destinations
